import Mathlib

/-!
A verification development for the krabzcnc-base 2D geometry core: the
segment/path data model (`ArcPath`, `LineSeg`/`ArcSeg`), the exact geometry
primitives (`Circle`, `Intersection`), the cubic-Bezier utilities and the
BiArc fitting engine.

Numbers are embedded exactly.  Code whose arithmetic is closed under field
operations is embedded generically over a `LinearOrderedField K` (so it is
executable and decidable at `K = ℚ` and instantiates at `K = ℝ`); code that
takes square roots (`length`, `normalize`, `Math.sqrt`) is embedded over `ℝ`
with `Real.sqrt`.  A source comparison `dist(a,b) < c` is embedded
square-root-free as `distLt` (0 < c ∧ distSquared < c²), which is proved
equivalent to the `Real.sqrt` form in `Vector2d.distLt_iff_dist_lt`.
-/

set_option linter.unusedSectionVars false

namespace KrabzCNC

variable {K : Type} [LinearOrderedField K]

/-- Modelled from the spec: the repository's `Vector2d` class (its source file
is not part of the provided files).  Per the spec it is an immutable 2D
point/vector value type with arithmetic, dot and cross products, length,
rotation by 90 degrees, normalization and epsilon equality.  The `rot90`
sign convention is pinned by the spec's round-trip example (an arc from
(1,0) to (0,1) with r=1, cw=false reconstructs center (0,0)): counter
clockwise rotation maps (x,y) to (-y,x), clockwise maps (x,y) to (y,-x). -/
structure Vector2d (K : Type) where
  x : K
  y : K
  deriving DecidableEq

instance : Inhabited (Vector2d K) := ⟨⟨0, 0⟩⟩

def Vector2d.plus (a b : Vector2d K) : Vector2d K := ⟨a.x + b.x, a.y + b.y⟩

def Vector2d.minus (a b : Vector2d K) : Vector2d K := ⟨a.x - b.x, a.y - b.y⟩

def Vector2d.multiply (a : Vector2d K) (s : K) : Vector2d K := ⟨a.x * s, a.y * s⟩

def Vector2d.dot (a b : Vector2d K) : K := a.x * b.x + a.y * b.y

def Vector2d.cross (a b : Vector2d K) : K := a.x * b.y - a.y * b.x

def Vector2d.lengthSquared (a : Vector2d K) : K := a.x * a.x + a.y * a.y

def Vector2d.distSquared (a b : Vector2d K) : K :=
  (a.x - b.x) * (a.x - b.x) + (a.y - b.y) * (a.y - b.y)

def Vector2d.rot90 (a : Vector2d K) (clockwise : Bool) : Vector2d K :=
  if clockwise then ⟨a.y, -a.x⟩ else ⟨-a.y, a.x⟩

/-- Linear interpolation between two points, the primitive of de Casteljau
subdivision (`CubicBezier.split` uses `Vector2d.lerp`). -/
def Vector2d.lerp (a b : Vector2d K) (t : K) : Vector2d K :=
  a.plus ((b.minus a).multiply t)

/-- Modelled from the spec: `Vector2d` equality uses a fixed small epsilon
per axis, not exact equality.  The spec does not give the constant; 1e-9 is
used here (the repository's `ArcPath.segTooTiny` uses a per-axis 1e-10 for a
similar check).  No claim settled below depends on the exact value: every
concrete input keeps its coordinates either exactly equal or far apart. -/
def Vector2d.epsilon : K := 1 / 1000000000

/-- `Math.abs`, written out so that it evaluates by kernel reduction. -/
def absVal (a : K) : K := if a < 0 then -a else a

def Vector2d.equals (a b : Vector2d K) : Prop :=
  absVal (a.x - b.x) < Vector2d.epsilon ∧ absVal (a.y - b.y) < Vector2d.epsilon

instance (a b : Vector2d K) : Decidable (a.equals b) :=
  inferInstanceAs (Decidable (_ ∧ _))

/-- Embeds the source comparison `Vector2d.dist(a, b) < c` without a square
root: `dist < c` iff `0 < c` and `distSquared < c * c` (`dist` is
non-negative).  Proved equivalent to the `Real.sqrt` form below. -/
def Vector2d.distLt (a b : Vector2d K) (c : K) : Prop :=
  0 < c ∧ Vector2d.distSquared a b < c * c

instance (a b : Vector2d K) (c : K) : Decidable (Vector2d.distLt a b c) :=
  inferInstanceAs (Decidable (_ ∧ _))

/-- `Circle.findCenter(p1, p2, radius, clockwise)` returns null exactly when
`q >= radius * 2` where `q` is the chord length.  This is the
square-root-free success test: `q < radius * 2` iff `0 < radius * 2` and
`q² < (radius * 2)²`.  Proved equivalent to the `ℝ` embedding of
`findCenter` returning a center in `Circle.findCenter_isSome_iff`. -/
def Circle.centerExists (p1 p2 : Vector2d K) (radius : K) : Prop :=
  0 < radius * 2 ∧ Vector2d.distSquared p1 p2 < (radius * 2) * (radius * 2)

instance (p1 p2 : Vector2d K) (radius : K) :
    Decidable (Circle.centerExists p1 p2 radius) :=
  inferInstanceAs (Decidable (_ ∧ _))

/-- The `LASeg` union of the source (`LineSeg | ArcSeg`), as a closed sum.
An `ArcSeg` owns `start`, `end`, `radius`, `clockwise`; its `center` is not
stored: the source derives it in the constructor from the other four fields
(`Circle.findCenter`), so here it is the derived function `LASeg.center?`
defined over `ℝ` below. -/
inductive LASeg (K : Type) where
  | line (s e : Vector2d K)
  | arc (s e : Vector2d K) (radius : K) (clockwise : Bool)
  deriving DecidableEq

instance : Inhabited (LASeg K) := ⟨.line default default⟩

def LASeg.start : LASeg K → Vector2d K
  | .line s _ => s
  | .arc s _ _ _ => s

/-- The segment's `end` field (`end` is a Lean keyword). -/
def LASeg.endPt : LASeg K → Vector2d K
  | .line _ e => e
  | .arc _ e _ _ => e

def LASeg.isLine : LASeg K → Bool
  | .line _ _ => true
  | .arc _ _ _ _ => false

/-- `new ArcSeg(start, end, radius, clockwise)`: the constructor derives the
center via `Circle.findCenter` and throws `radius too small` when that
returns null; embedded as `none` on failure. -/
def ArcSeg.make (s e : Vector2d K) (radius : K) (clockwise : Bool) :
    Option (LASeg K) :=
  if Circle.centerExists s e radius then some (.arc s e radius clockwise)
  else none

/-- The chord/radius rule an `ArcSeg`'s stored fields satisfy whenever its
construction succeeded (lines carry no constraint). -/
def LASeg.chordOk : LASeg K → Prop
  | .line _ _ => True
  | .arc s e r _ => Circle.centerExists s e r

instance (s : LASeg K) : Decidable s.chordOk := by
  cases s <;> simp only [LASeg.chordOk] <;> infer_instance

/-- `LineSeg.reversed` swaps the endpoints; `ArcSeg.reversed` constructs
`new ArcSeg(end, start, radius, !clockwise)` — that constructor re-checks
the chord/radius rule, which cannot fail there because chord and radius are
unchanged, so the embedding is total. -/
def LASeg.reversed : LASeg K → LASeg K
  | .line s e => .line e s
  | .arc s e r cw => .arc e s r (!cw)

/-- `splitAt(p)`: a line splits into two lines; an arc constructs two new
`ArcSeg`s with the same radius and winding (each construction can throw,
hence `Option`). -/
def LASeg.splitAt : LASeg K → Vector2d K → Option (LASeg K × LASeg K)
  | .line s e, p => some (.line s p, .line p e)
  | .arc s e r cw, p => do
    let a1 ← ArcSeg.make s p r cw
    let a2 ← ArcSeg.make p e r cw
    some (a1, a2)

structure BoundingBox (K : Type) where
  min : Vector2d K
  max : Vector2d K
  deriving DecidableEq

def BoundingBox.fromPoints (p1 p2 : Vector2d K) : BoundingBox K :=
  ⟨⟨Min.min p1.x p2.x, Min.min p1.y p2.y⟩, ⟨Max.max p1.x p2.x, Max.max p1.y p2.y⟩⟩

def BoundingBox.extendWithPoint (bb : BoundingBox K) (p : Vector2d K) : BoundingBox K :=
  ⟨⟨Min.min bb.min.x p.x, Min.min bb.min.y p.y⟩, ⟨Max.max bb.max.x p.x, Max.max bb.max.y p.y⟩⟩

/-- `BoundingBox.merge`: null for an empty list, otherwise the componentwise
min/max fold seeded from `bbs[0]` over every element (the source folds over
the whole list, its first element included twice — harmless). -/
def BoundingBox.merge (bbs : List (BoundingBox K)) : Option (BoundingBox K) :=
  match bbs with
  | [] => none
  | b0 :: _ =>
    some (bbs.foldl (fun acc bb =>
      ⟨⟨Min.min acc.min.x bb.min.x, Min.min acc.min.y bb.min.y⟩,
       ⟨Max.max acc.max.x bb.max.x, Max.max acc.max.y bb.max.y⟩⟩) b0)

/-- The `ArcPath` constructor's continuity assertion: for every index of the
(already filtered) list, `segs[i].end.equals(segs[(i + 1) % segs.length].start)`.
Note the modulus: the check wraps around from the last segment to the first. -/
def wrapContinuous (segs : List (LASeg K)) : Prop :=
  ∀ i, (h : i < segs.length) →
    (segs.get ⟨i, h⟩).endPt.equals
      ((segs.get ⟨(i + 1) % segs.length, Nat.mod_lt _ (Nat.zero_lt_of_lt h)⟩).start)

instance (segs : List (LASeg K)) : Decidable (wrapContinuous segs) :=
  Nat.decidableBallLT _ _

/-- An `ArcPath` value: the segment list plus the two lazy caches
(`cachedBounds`, `cachedArea`, both null after construction) and, as
propositional fields, what the constructor established: no zero-length
segment survived the filter, and the wrap-around continuity assertion. -/
structure ArcPath (K : Type) [LinearOrderedField K] where
  segs : List (LASeg K)
  cachedBounds : Option (BoundingBox K)
  cachedArea : Option K
  nodegen : ∀ s ∈ segs, ¬ s.start.equals s.endPt
  continuous : wrapContinuous segs

/-- The `ArcPath` constructor: filter out segments whose `start.equals(end)`,
then assert wrap-around continuity (throwing — here `none` — on a
disruption); caches start out null. -/
def ArcPath.make (segs : List (LASeg K)) : Option (ArcPath K) :=
  let fsegs := segs.filter (fun s => !decide (s.start.equals s.endPt))
  if h : wrapContinuous fsegs then
    some ⟨fsegs, none, none,
      fun s hs => by simpa using (List.mem_filter.mp hs).2, h⟩
  else none

/-- `isClosed()`: `segs.length > 1 && first().start.equals(last().end)`. -/
def ArcPath.isClosed (p : ArcPath K) : Prop :=
  1 < p.segs.length ∧ (p.segs.headI.start).equals (p.segs.getLastI.endPt)

instance (p : ArcPath K) : Decidable p.isClosed :=
  inferInstanceAs (Decidable (_ ∧ _))

/-- `withNewEntryPoint(splitSegIndex, newEntryPoint, tolerance)`: throws when
the path is not closed; otherwise rotates (and possibly splits) the segment
list.  The second branch is embedded exactly as written in the source:
`else if (Vector2d.dist(newEntryPoint, splitSeg.end))` uses the distance
*as a boolean* (missing `< tolerance / 2`), so it is taken whenever that
distance is non-zero, i.e. whenever `distSquared` is non-zero. -/
def ArcPath.withNewEntryPoint (p : ArcPath K) (splitSegIndex : ℕ)
    (newEntryPoint : Vector2d K) (tolerance : K) : Option (ArcPath K) :=
  if p.isClosed then
    match p.segs.get? splitSegIndex with
    | none => none
    | some splitSeg =>
      let before := p.segs.take splitSegIndex
      let after := p.segs.drop (splitSegIndex + 1)
      if Vector2d.distLt newEntryPoint splitSeg.start (tolerance / 2) then
        ArcPath.make (splitSeg :: (after ++ before))
      else if Vector2d.distSquared newEntryPoint splitSeg.endPt ≠ 0 then
        ArcPath.make (before ++ after ++ [splitSeg])
      else
        match splitSeg.splitAt newEntryPoint with
        | none => none
        | some (s1, s2) => ArcPath.make (s2 :: (after ++ before ++ [s1]))
  else none

/-- `reversed()`: construct a new path from the per-segment reversals in
reverse order, keep the cached bounds, negate the cached area. -/
def ArcPath.reversed (p : ArcPath K) : Option (ArcPath K) :=
  (ArcPath.make ((p.segs.map LASeg.reversed).reverse)).map fun q =>
    { q with cachedBounds := p.cachedBounds,
             cachedArea := p.cachedArea.map (fun a => -a) }

/-- The fixed JSON wire records for `LASeg` (`{type:"line", s, e}` and
`{type:"arc", s, e, r, cw}`), with the coordinate pairs as pairs. -/
inductive SegRecord (K : Type) where
  | line (s e : K × K)
  | arc (s e : K × K) (r : K) (cw : Bool)
  deriving DecidableEq

def LASeg.toJson : LASeg K → SegRecord K
  | .line s e => .line (s.x, s.y) (e.x, e.y)
  | .arc s e r cw => .arc (s.x, s.y) (e.x, e.y) r cw

/-- Decoding one record: a line record always decodes; an arc record runs the
`ArcSeg` constructor, which re-derives the center and can throw. -/
def LASeg.fromJson : SegRecord K → Option (LASeg K)
  | .line s e => some (.line ⟨s.1, s.2⟩ ⟨e.1, e.2⟩)
  | .arc s e r cw => ArcSeg.make ⟨s.1, s.2⟩ ⟨e.1, e.2⟩ r cw

def ArcPath.toJson (p : ArcPath K) : List (SegRecord K) :=
  p.segs.map LASeg.toJson

/-- `ArcPath.fromJson`: decode every record (a throwing decode aborts), then
run the path constructor. -/
def ArcPath.fromJson (recs : List (SegRecord K)) : Option (ArcPath K) := do
  let segs ← recs.mapM LASeg.fromJson
  ArcPath.make segs

/-- A concrete closed `ArcPath` over `ℚ`: the unit circle as four
counter-clockwise quarter arcs (the first is the spec's round-trip example
record `{type:"arc", s:[1,0], e:[0,1], r:1, cw:false}`). -/
def qcircle : ArcPath ℚ :=
  ⟨[.arc ⟨1, 0⟩ ⟨0, 1⟩ 1 false, .arc ⟨0, 1⟩ ⟨-1, 0⟩ 1 false,
    .arc ⟨-1, 0⟩ ⟨0, -1⟩ 1 false, .arc ⟨0, -1⟩ ⟨1, 0⟩ 1 false],
   none, none,
   by
    intro s hs
    simp only [List.mem_cons, List.not_mem_nil, or_false] at hs
    rcases hs with rfl | rfl | rfl | rfl <;>
      norm_num [Vector2d.equals, absVal, Vector2d.epsilon, LASeg.start, LASeg.endPt],
   by
    intro i h
    simp only [List.length_cons, List.length_nil] at h
    interval_cases i <;>
      norm_num [List.get, Vector2d.equals, absVal, Vector2d.epsilon,
        LASeg.start, LASeg.endPt]⟩

/-!
The square-root layer: everything from here to the end of the definitions is
the part of the source whose arithmetic uses `Math.sqrt` (lengths,
normalization, circle centers), embedded over `ℝ` with `Real.sqrt`.
-/

noncomputable def Vector2d.length (a : Vector2d ℝ) : ℝ :=
  Real.sqrt a.lengthSquared

noncomputable def Vector2d.dist (a b : Vector2d ℝ) : ℝ :=
  Real.sqrt (Vector2d.distSquared a b)

noncomputable def Vector2d.normalize (a : Vector2d ℝ) : Vector2d ℝ :=
  a.multiply (1 / a.length)

/-- `Circle.findCenter(p1, p2, radius, clockwise)`: null when the chord is at
least `radius * 2` long, otherwise the midpoint of the chord displaced along
the rotated chord normal.  Division by a zero chord length follows Lean's
`x / 0 = 0` convention (the source produces NaN there; either way the claim
checked at that input fails, see `c6_counterexample`). -/
noncomputable def Circle.findCenter (p1 p2 : Vector2d ℝ) (radius : ℝ)
    (clockwise : Bool) : Option (Vector2d ℝ) :=
  let qVec := p2.minus p1
  let q := qVec.length
  if q ≥ radius * 2 then none
  else
    let midPoint := (p1.plus p2).multiply 0.5
    let a := Real.sqrt (radius * radius - q * q / 4)
    let nVec := (qVec.multiply (1 / q)).rot90 clockwise
    some (midPoint.plus (nVec.multiply a))

/-- `Circle.getLineError`: the error of replacing the arc by its chord.
`opposite` embeds the source's boolean mismatch test
`centerToStart.cross(centerToEnd) < 0 !== clockwise`. -/
noncomputable def Circle.getLineError (s e center : Vector2d ℝ) (radius : ℝ)
    (clockwise : Bool) : ℝ :=
  let lineMidpoint := (s.plus e).multiply 0.5
  let distToCenter := Vector2d.dist lineMidpoint center
  let centerToStart := s.minus center
  let centerToEnd := e.minus center
  if ((centerToStart.cross centerToEnd < 0) ≠ (clockwise = true)) then
    radius + distToCenter
  else radius - distToCenter

/-- The derived `center` of an `ArcSeg` (the source stores it at construction
time; it is a function of the four stored fields). -/
noncomputable def LASeg.center? : LASeg ℝ → Option (Vector2d ℝ)
  | .line _ _ => none
  | .arc s e r cw => Circle.findCenter s e r cw

structure LineSegIntersection (K : Type) where
  inRange : Bool
  t1 : K
  t2 : K
  p : Vector2d K

/-- `Intersection.line2line`: null when the determinant's magnitude is below
the fixed 1e-9 cutoff, otherwise the parametric intersection. -/
def Intersection.line2line (seg1 seg2 : Vector2d K × Vector2d K) :
    Option (LineSegIntersection K) :=
  let delta1 := seg1.2.minus seg1.1
  let delta2 := seg2.2.minus seg2.1
  let det := delta1.x * delta2.y - delta1.y * delta2.x
  if absVal det < 1 / 1000000000 then none
  else
    let t1 := (delta2.y * (seg2.1.x - seg1.1.x) - delta2.x * (seg2.1.y - seg1.1.y)) / det
    let t2 := (delta1.y * (seg2.1.x - seg1.1.x) - delta1.x * (seg2.1.y - seg1.1.y)) / det
    some ⟨decide (0 < t1 ∧ t1 < 1 ∧ 0 < t2 ∧ t2 < 1), t1, t2, seg1.1.plus (delta1.multiply t1)⟩

/-- `Intersection.arc2arc`: 0, 1 or 2 intersection points of two circles;
concentric or too-distant circles give none. -/
noncomputable def Intersection.arc2arc (c1 : Vector2d ℝ) (r1 : ℝ)
    (c2 : Vector2d ℝ) (r2 : ℝ) : List (Vector2d ℝ) :=
  let c1c2 := c2.minus c1
  let d := c1c2.length
  if d = 0 then []
  else if d > r1 + r2 then []
  else
    let a := (r1 * r1 - r2 * r2 + d * d) / (2 * d)
    let h2 := r1 * r1 - a * a
    if h2 < 0 then []
    else
      let m := c1.plus ((c2.minus c1).multiply (a / d))
      if h2 = 0 then [m]
      else
        let h := Real.sqrt h2
        let q := c1c2.multiply (h / d)
        [⟨m.x + q.y, m.y - q.x⟩, ⟨m.x - q.y, m.y + q.x⟩]

/-- The 4 control points of one cubic Bezier curve (the source's `BezPoints`
tuple, with named fields). -/
structure BezPoints (K : Type) where
  s : Vector2d K
  c1 : Vector2d K
  c2 : Vector2d K
  e : Vector2d K

/-- Single-component cubic Bernstein evaluation. -/
def CubicBezier.calc (s c1 c2 e t : K) : K :=
  let omt := 1 - t
  let omt2 := omt * omt
  let omt3 := omt2 * omt
  let t2 := t * t
  let t3 := t2 * t
  omt3 * s + 3 * omt2 * t * c1 + 3 * omt * t2 * c2 + t3 * e

def CubicBezier.calculate (s c1 c2 e : Vector2d K) (t : K) : Vector2d K :=
  ⟨CubicBezier.calc s.x c1.x c2.x e.x t, CubicBezier.calc s.y c1.y c2.y e.y t⟩

/-- De Casteljau subdivision at parameter `t`. -/
def CubicBezier.split (s c1 c2 e : Vector2d K) (t : K) :
    BezPoints K × BezPoints K :=
  let c11 := Vector2d.lerp s c1 t
  let c22 := Vector2d.lerp c2 e t
  let p := Vector2d.lerp c1 c2 t
  let c21 := Vector2d.lerp c11 p t
  let c12 := Vector2d.lerp p c22 t
  let dp := Vector2d.lerp c21 c12 t
  (⟨s, c11, c21, dp⟩, ⟨dp, c12, c22, e⟩)

/-- `[A, B, C]` of `Ax + By + C = 0` through two points (`CubicBezier`'s own
private lineEquation). -/
def CubicBezier.lineEquation (p1 p2 : Vector2d K) : K × K × K :=
  let delta := p2.minus p1
  (-delta.y, delta.x, p1.cross p2)

def CubicBezier.pointToLine (p : Vector2d K) (a b c : K) : Vector2d K :=
  let den := a * a + b * b
  ⟨(b * (b * p.x - a * p.y) - a * c) / den, (a * (-(b * p.x) + a * p.y) - b * c) / den⟩

def CubicBezier.isBetween (value v1 v2 : K) : Prop :=
  if v1 ≤ v2 then v1 ≤ value ∧ value ≤ v2 else v2 ≤ value ∧ value ≤ v1

instance (value v1 v2 : K) : Decidable (CubicBezier.isBetween value v1 v2) := by
  unfold CubicBezier.isBetween
  infer_instance

/-- The source's early-return chain (`return false` cases), as a conjunction:
not further than tolerance from the line, and the foot of the normal between
the endpoints in both coordinates. -/
def CubicBezier.cpWithinTolerance (cp p1 p2 : Vector2d K) (a b c tolSquared : K) : Prop :=
  let c1Hat := CubicBezier.pointToLine cp a b c
  Vector2d.distSquared cp c1Hat ≤ tolSquared ∧
    CubicBezier.isBetween c1Hat.x p1.x p2.x ∧ CubicBezier.isBetween c1Hat.y p1.y p2.y

instance (cp p1 p2 : Vector2d K) (a b c tolSquared : K) :
    Decidable (CubicBezier.cpWithinTolerance cp p1 p2 a b c tolSquared) := by
  unfold CubicBezier.cpWithinTolerance
  infer_instance

/-- `CubicBezier.isFlat`: the fast path (both handles within tolerance of
their endpoints, an early `return true`) or both control points within
tolerance of the chord line. -/
def CubicBezier.isFlat (p1 c1 c2 p2 : Vector2d K) (tolerance : K) : Prop :=
  let tolSquared := tolerance * tolerance
  (Vector2d.distSquared p1 c1 < tolSquared ∧ Vector2d.distSquared p2 c2 < tolSquared) ∨
    (let abc := CubicBezier.lineEquation p1 p2
     CubicBezier.cpWithinTolerance c1 p1 p2 abc.1 abc.2.1 abc.2.2 tolSquared ∧
       CubicBezier.cpWithinTolerance c2 p1 p2 abc.1 abc.2.1 abc.2.2 tolSquared)

instance (p1 c1 c2 p2 : Vector2d K) (tolerance : K) :
    Decidable (CubicBezier.isFlat p1 c1 c2 p2 tolerance) := by
  unfold CubicBezier.isFlat
  infer_instance

/-- The shoelace winding heuristic over the control polygon (`sum >= 0`). -/
noncomputable def CubicBezier.isClockwise (s c1 c2 e : Vector2d ℝ) : Bool :=
  let sum := (c1.x - s.x) * (c1.y + s.y) + (c2.x - c1.x) * (c2.y + c1.y) +
    (e.x - c2.x) * (e.y + c2.y) + (s.x - e.x) * (s.y + e.y)
  decide (sum ≥ 0)

/-- Inflection parameters strictly inside (0, 1): the quadratic in the
cross products of the derivative coefficient vectors. -/
noncomputable def CubicBezier.inflectionPoints (s c1 c2 e : Vector2d ℝ) : List ℝ :=
  let aVec := c1.minus s
  let bVec := (c2.minus c1).minus aVec
  let cVec := (((e.minus c2).minus aVec)).minus (bVec.multiply 2)
  let a := bVec.cross cVec
  let b := aVec.cross cVec
  let c := aVec.cross bVec
  let det := b * b - 4 * a * c
  if det < 0 then []
  else if det = 0 then
    let t := -b / (2 * a)
    if 0 < t ∧ t < 1 then [t] else []
  else
    [(-b + Real.sqrt det) / (2 * a), (-b - Real.sqrt det) / (2 * a)].filter
      (fun t => decide (0 < t ∧ t < 1))

/-- The biarc segment descriptor (`{arc, start, end, center?, radius?,
clockwise?}`) as a closed sum: produced by the fitting engine, consumed by
the segment adapter. -/
inductive BiarcSeg where
  | line (s e : Vector2d ℝ)
  | arc (s e center : Vector2d ℝ) (radius : ℝ) (clockwise : Bool)

def BiarcSeg.start : BiarcSeg → Vector2d ℝ
  | .line s _ => s
  | .arc s _ _ _ _ => s

def BiarcSeg.endPt : BiarcSeg → Vector2d ℝ
  | .line _ e => e
  | .arc _ e _ _ _ => e

def BiArc.line (s e : Vector2d ℝ) : BiarcSeg := .line s e

/-- Emit one arc descriptor, collapsed to a line when its chord-to-arc error
is below `tolerance / 2`. -/
noncomputable def BiArc.arcOrLine (s e center : Vector2d ℝ) (radius : ℝ)
    (clockwise : Bool) (tolerance : ℝ) : BiarcSeg :=
  if Circle.getLineError s e center radius clockwise < tolerance / 2 then .line s e
  else .arc s e center radius clockwise

/-- Re-derive the exact two-point circle through `arc2arc`, seeding with the
inaccurate center; fall back to a line unless exactly two candidates. -/
noncomputable def BiArc.singleArcOrLine (p1 p2 inaccurateCenter : Vector2d ℝ)
    (radius tolerance : ℝ) : List BiarcSeg :=
  match Intersection.arc2arc p1 radius p2 radius with
  | [cand0, cand1] =>
    let center := if Vector2d.dist cand0 inaccurateCenter < Vector2d.dist cand1 inaccurateCenter
      then cand0 else cand1
    let clockwise := decide ((p1.minus center).cross (p2.minus center) < 0)
    [BiArc.arcOrLine p1 p2 center radius clockwise tolerance]
  | _ => [BiArc.line p1 p2]

/-- `BiArc.findCenter(p, c, g)`: center of the circle through `p` and `g`
tangent to `pc` at `p` (intersection of the tangent normal at `p` with the
perpendicular bisector of `pg`). -/
noncomputable def BiArc.findCenter (p c g : Vector2d ℝ) : Option (Vector2d ℝ) :=
  let pgmid := (p.plus g).multiply 0.5
  let pPlusPCnorm := p.plus ((c.minus p).rot90 true)
  let pgmidPlusPGnorm := pgmid.plus ((g.minus p).rot90 true)
  match Intersection.line2line (p, pPlusPCnorm) (pgmid, pgmidPlusPGnorm) with
  | none => none
  | some crossing => some crossing.p

/-- The incenter-weighted joint point `g` of the triangle `(p1, p2, v)`
(inline in the source's `fromMonotoneBezier`, lines 99-104). -/
noncomputable def BiArc.jointPoint (p1 p2 v : Vector2d ℝ) : Vector2d ℝ :=
  let dp1v := (v.minus p1).length
  let dp2v := (v.minus p2).length
  let dp1p2 := (p2.minus p1).length
  ⟨(dp2v * p1.x + dp1v * p2.x + dp1p2 * v.x) / (dp2v + dp1v + dp1p2),
   (dp2v * p1.y + dp1v * p2.y + dp1p2 * v.y) / (dp2v + dp1v + dp1p2)⟩

/-- Minimum over the two circles of the sampled radial error at `t`. -/
noncomputable def BiArc.calcError (p1 c1 c2 p2 : Vector2d ℝ) (t : ℝ)
    (center1 : Vector2d ℝ) (radius1 : ℝ) (center2 : Vector2d ℝ) (radius2 : ℝ) : ℝ :=
  let bt := CubicBezier.calculate p1 c1 c2 p2 t
  Min.min (absVal (Vector2d.dist center1 bt - radius1))
    (absVal (Vector2d.dist center2 bt - radius2))

/-- The sampling loop of `fromMonotoneBezier` (t = 0.2, 0.4, 0.6, 0.8) and
its `reduce` with seed `[0, 0]` picking the pair with the larger error:
returns `(maxT, maxErr)`. -/
noncomputable def BiArc.sampleMax (p1 c1 c2 p2 s1 : Vector2d ℝ) (r1 : ℝ)
    (s2 : Vector2d ℝ) (r2 : ℝ) : ℝ × ℝ :=
  let results := [(0.2 : ℝ), 0.4, 0.6, 0.8].map
    (fun tt => (tt, BiArc.calcError p1 c1 c2 p2 tt s1 r1 s2 r2))
  results.foldl (fun p v => if p.2 > v.2 then p else v) (0, 0)

/-- The failures `fromMonotoneBezier` can signal: the source's thrown
`too deep`, plus exhaustion of the embedding's structural fuel (the source
has no such bound; `outOfFuel` marks runs the fuel cut short). -/
inductive BiArcErr where
  | tooDeep
  | outOfFuel

mutual

/-- `BiArc.fromMonotoneBezier(p1, c1, c2, p2, tolerance, depth)`.  The fuel
argument is an artifact of the embedding (every recursive call consumes one
unit); all other structure mirrors the source: the `depth > 50` throw, the
flat/short-chord line collapses, the tangent-intersection construction with
its split-in-half fallbacks, the single-arc collapse near `g`, and the
sampled-error split at `depth + 1`. -/
noncomputable def BiArc.fromMonotoneBezier : ℕ → Vector2d ℝ → Vector2d ℝ →
    Vector2d ℝ → Vector2d ℝ → ℝ → ℕ → Except BiArcErr (List BiarcSeg)
  | 0, _, _, _, _, _, _ => .error .outOfFuel
  | fuel + 1, p1, c1, c2, p2, tolerance, depth =>
    if depth > 50 then .error .tooDeep
    else if CubicBezier.isFlat p1 c1 c2 p2 tolerance then .ok [BiArc.line p1 p2]
    else if (p2.minus p1).length < tolerance then .ok [BiArc.line p1 p2]
    else
      let p1c1 := c1.minus p1
      match Intersection.line2line (p1, c1) (p2, c2) with
      | none => BiArc.splitInHalf fuel p1 c1 c2 p2 tolerance depth
      | some crossing =>
        let v := crossing.p
        let p1v := v.minus p1
        if p1c1.dot p1v < 0 then BiArc.splitInHalf fuel p1 c1 c2 p2 tolerance depth
        else
          let g := BiArc.jointPoint p1 p2 v
          match BiArc.findCenter p1 c1 g, BiArc.findCenter p2 c2 g with
          | some s1, some s2 =>
            let r1 := (s1.minus p1).length
            let r2 := (s2.minus p2).length
            if (p1.minus g).length < tolerance then
              .ok (BiArc.singleArcOrLine p1 p2 s2 r2 tolerance)
            else if (p2.minus g).length < tolerance then
              .ok (BiArc.singleArcOrLine p1 p2 s1 r1 tolerance)
            else if r1 < tolerance ∨ r2 < tolerance then
              BiArc.splitInHalf fuel p1 c1 c2 p2 tolerance depth
            else
              let m := BiArc.sampleMax p1 c1 c2 p2 s1 r1 s2 r2
              if m.2 > tolerance then
                let pair := CubicBezier.split p1 c1 c2 p2 m.1
                do
                  let l1 ← BiArc.fromMonotoneBezier fuel pair.1.s pair.1.c1
                    pair.1.c2 pair.1.e tolerance (depth + 1)
                  let l2 ← BiArc.fromMonotoneBezier fuel pair.2.s pair.2.c1
                    pair.2.c2 pair.2.e tolerance (depth + 1)
                  .ok (l1 ++ l2)
              else
                let clockwise := CubicBezier.isClockwise p1 c1 c2 p2
                .ok [BiArc.arcOrLine p1 g s1 r1 clockwise tolerance,
                     BiArc.arcOrLine g p2 s2 r2 clockwise tolerance]
          | _, _ => BiArc.splitInHalf fuel p1 c1 c2 p2 tolerance depth

/-- `BiArc.splitInHalf`: split at 0.5 and recurse on both halves with the
SAME depth (the source passes `depth` through unchanged here; only the
sampled-error split passes `depth + 1`). -/
noncomputable def BiArc.splitInHalf (fuel : ℕ) (p1 c1 c2 p2 : Vector2d ℝ)
    (tolerance : ℝ) (depth : ℕ) : Except BiArcErr (List BiarcSeg) :=
  let pair := CubicBezier.split p1 c1 c2 p2 0.5
  do
    let l1 ← BiArc.fromMonotoneBezier fuel pair.1.s pair.1.c1 pair.1.c2 pair.1.e tolerance depth
    let l2 ← BiArc.fromMonotoneBezier fuel pair.2.s pair.2.c1 pair.2.c2 pair.2.e tolerance depth
    .ok (l1 ++ l2)

end

/-- The rest of `fromBezier` after the handle-crossing check (factored so the
`handleCrossing != null && handleCrossing.inRange` short-circuit reads as in
the source): flat test, then the inflection-point case analysis. -/
noncomputable def BiArc.fromBezierTail (fuel : ℕ) (p1 c1 c2 p2 : Vector2d ℝ)
    (tolerance : ℝ) : Except BiArcErr (List BiarcSeg) :=
  if CubicBezier.isFlat p1 c1 c2 p2 tolerance then .ok [BiArc.line p1 p2]
  else
    match CubicBezier.inflectionPoints p1 c1 c2 p2 with
    | [t0] =>
      let pair := CubicBezier.split p1 c1 c2 p2 t0
      do
        let l1 ← BiArc.fromMonotoneBezier fuel pair.1.s pair.1.c1 pair.1.c2 pair.1.e tolerance 0
        let l2 ← BiArc.fromMonotoneBezier fuel pair.2.s pair.2.c1 pair.2.c2 pair.2.e tolerance 0
        .ok (l1 ++ l2)
    | [ta, tb] =>
      let ipMin := Min.min ta tb
      let ipMax := Max.max ta tb
      let pairA := CubicBezier.split p1 c1 c2 p2 ipMin
      let pairB := CubicBezier.split pairA.2.s pairA.2.c1 pairA.2.c2 pairA.2.e ipMax
      do
        let l1 ← BiArc.fromMonotoneBezier fuel pairA.1.s pairA.1.c1 pairA.1.c2 pairA.1.e tolerance 0
        let l2 ← BiArc.fromMonotoneBezier fuel pairB.1.s pairB.1.c1 pairB.1.c2 pairB.1.e tolerance 0
        let l3 ← BiArc.fromMonotoneBezier fuel pairB.2.s pairB.2.c1 pairB.2.c2 pairB.2.e tolerance 0
        .ok (l1 ++ l2 ++ l3)
    | _ => BiArc.fromMonotoneBezier fuel p1 c1 c2 p2 tolerance 0

/-- `BiArc.fromBezier`: the top-level entry.  Splits self-touching or
handle-crossing curves in half, collapses flat curves to a line, splits at
inflection points, otherwise fits the monotone curve directly.  The source's
`try`/`catch` logs and rethrows, so it does not change the result. -/
noncomputable def BiArc.fromBezier (fuel : ℕ) (p1 c1 c2 p2 : Vector2d ℝ)
    (tolerance : ℝ) : Except BiArcErr (List BiarcSeg) :=
  if p1.equals p2 then
    let pair := CubicBezier.split p1 c1 c2 p2 0.5
    do
      let l1 ← BiArc.fromMonotoneBezier fuel pair.1.s pair.1.c1 pair.1.c2 pair.1.e tolerance 0
      let l2 ← BiArc.fromMonotoneBezier fuel pair.2.s pair.2.c1 pair.2.c2 pair.2.e tolerance 0
      .ok (l1 ++ l2)
  else
    match Intersection.line2line (p1, c1) (p2, c2) with
    | some handleCrossing =>
      if handleCrossing.inRange then
        let pair := CubicBezier.split p1 c1 c2 p2 0.5
        do
          let l1 ← BiArc.fromMonotoneBezier fuel pair.1.s pair.1.c1 pair.1.c2 pair.1.e tolerance 0
          let l2 ← BiArc.fromMonotoneBezier fuel pair.2.s pair.2.c1 pair.2.c2 pair.2.e tolerance 0
          .ok (l1 ++ l2)
      else BiArc.fromBezierTail fuel p1 c1 c2 p2 tolerance
    | none => BiArc.fromBezierTail fuel p1 c1 c2 p2 tolerance

/-- `ArcSeg.getMidVec`: the direction-aware midpoint vector used to bisect a
wide arc; its magnitude is `cs.length()`. -/
noncomputable def ArcSeg.getMidVec (cs ce : Vector2d ℝ) (clockwise : Bool) : Vector2d ℝ :=
  let radius := cs.length
  let cw := decide (cs.cross ce < 0)
  if cw = clockwise then (cs.plus ce).normalize.multiply radius
  else (cs.plus ce).normalize.multiply (-radius)

/-- `ArcSeg.oneOrMore`: bisect while the radius vectors to start and end
subtend more than 90 degrees (non-positive dot), then emit one arc — or a
line when the chord-to-arc error is at most `tolerance / 2` — dropping the
segment entirely when `start.equals(end)`.  The fuel is an embedding
artifact; `none` stands for a run the fuel cut short or an `ArcSeg`
construction that threw. -/
noncomputable def ArcSeg.oneOrMore : ℕ → Vector2d ℝ → Vector2d ℝ → ℝ →
    Vector2d ℝ → Bool → ℝ → Option (List (LASeg ℝ))
  | 0, _, _, _, _, _, _ => none
  | fuel + 1, s, e, radius, center, clockwise, tolerance =>
    let cs := s.minus center
    let ce := e.minus center
    if cs.dot ce ≤ 0 then
      let midVec := ArcSeg.getMidVec cs ce clockwise
      let midPoint := center.plus midVec
      do
        let l1 ← ArcSeg.oneOrMore fuel s midPoint radius center clockwise tolerance
        let l2 ← ArcSeg.oneOrMore fuel midPoint e radius center clockwise tolerance
        some (l1 ++ l2)
    else
      if Circle.getLineError s e center radius clockwise > tolerance / 2 then
        if s.equals e then some []
        else (ArcSeg.make s e radius clockwise).map (fun a => [a])
      else
        if s.equals e then some [] else some [.line s e]

/-- `ArcSeg.getBounds` (quadrant analysis; the `> 90 degrees` case throws)
and `LineSeg.getBounds`, with the arc's derived center resolved first.
Boolean equality tests (`startWest === endWest`) are embedded as `↔`. -/
noncomputable def LASeg.getBounds : LASeg ℝ → Option (BoundingBox ℝ)
  | .line s e => some (BoundingBox.fromPoints s e)
  | .arc s e r cw =>
    match Circle.findCenter s e r cw with
    | none => none
    | some center =>
      let endpointAtNorthSouthAxis := s.x = center.x ∨ e.x = center.x
      let endpointAtEastWestAxis := s.y = center.y ∨ e.y = center.y
      let startWest := s.x < center.x
      let endWest := e.x < center.x
      let startSouth := s.y < center.y
      let endSouth := e.y < center.y
      let defaultBounds := BoundingBox.fromPoints s e
      if (startWest ↔ endWest) ∨ endpointAtNorthSouthAxis then
        if (startSouth ↔ endSouth) ∨ endpointAtEastWestAxis then some defaultBounds
        else
          let extension := if startWest then center.minus ⟨r, 0⟩ else center.plus ⟨r, 0⟩
          some (defaultBounds.extendWithPoint extension)
      else
        if (startSouth ↔ endSouth) ∨ endpointAtEastWestAxis then
          let extension := if startSouth then center.minus ⟨0, r⟩ else center.plus ⟨0, r⟩
          some (defaultBounds.extendWithPoint extension)
        else none

/-- `ArcPath.getBounds`: returns the cache if set, otherwise merges the
per-segment boxes.  The outer `Option` is a segment `getBounds` throw; the
inner one is `BoundingBox.merge`'s result, which is null for an empty
segment list even though the source's declared return type promises a box. -/
noncomputable def ArcPath.getBounds (p : ArcPath ℝ) : Option (Option (BoundingBox ℝ)) :=
  match p.cachedBounds with
  | some bb => some (some bb)
  | none => (p.segs.mapM LASeg.getBounds).map BoundingBox.merge

/-- One invocation state of `fromMonotoneBezier` (its five source arguments
and the depth counter). -/
structure MonoState where
  p1 : Vector2d ℝ
  c1 : Vector2d ℝ
  c2 : Vector2d ℝ
  p2 : Vector2d ℝ
  tolerance : ℝ
  depth : ℕ

/-- The two halves `splitInHalf` recurses on. -/
noncomputable def BiArc.halves (p1 c1 c2 p2 : Vector2d ℝ) : List (BezPoints ℝ) :=
  [(CubicBezier.split p1 c1 c2 p2 0.5).1, (CubicBezier.split p1 c1 c2 p2 0.5).2]

/-- `s calls t`: one direct recursive self-call of `fromMonotoneBezier`, one
constructor per recursion site of the source, each carrying the branch
conditions that guard it there (`splitInHalf` is reached after the
`depth > 50` throw check and the two line collapses did not fire).  The four
`splitInHalf` sites pass `depth` unchanged; the sampled-error split passes
`depth + 1`. -/
inductive BiArc.MonoCall : MonoState → MonoState → Prop where
  | splitNoCrossing (p1 c1 c2 p2 : Vector2d ℝ) (tolerance : ℝ) (depth : ℕ)
      (half : BezPoints ℝ)
      (hdepth : ¬ depth > 50)
      (hflat : ¬ CubicBezier.isFlat p1 c1 c2 p2 tolerance)
      (hchord : ¬ (p2.minus p1).length < tolerance)
      (hcross : Intersection.line2line (p1, c1) (p2, c2) = none)
      (hhalf : half ∈ BiArc.halves p1 c1 c2 p2) :
      BiArc.MonoCall ⟨p1, c1, c2, p2, tolerance, depth⟩
        ⟨half.s, half.c1, half.c2, half.e, tolerance, depth⟩
  | splitBehindTangent (p1 c1 c2 p2 : Vector2d ℝ) (tolerance : ℝ) (depth : ℕ)
      (crossing : LineSegIntersection ℝ) (half : BezPoints ℝ)
      (hdepth : ¬ depth > 50)
      (hflat : ¬ CubicBezier.isFlat p1 c1 c2 p2 tolerance)
      (hchord : ¬ (p2.minus p1).length < tolerance)
      (hcross : Intersection.line2line (p1, c1) (p2, c2) = some crossing)
      (hbehind : (c1.minus p1).dot (crossing.p.minus p1) < 0)
      (hhalf : half ∈ BiArc.halves p1 c1 c2 p2) :
      BiArc.MonoCall ⟨p1, c1, c2, p2, tolerance, depth⟩
        ⟨half.s, half.c1, half.c2, half.e, tolerance, depth⟩
  | splitCenterFail (p1 c1 c2 p2 : Vector2d ℝ) (tolerance : ℝ) (depth : ℕ)
      (crossing : LineSegIntersection ℝ) (half : BezPoints ℝ)
      (hdepth : ¬ depth > 50)
      (hflat : ¬ CubicBezier.isFlat p1 c1 c2 p2 tolerance)
      (hchord : ¬ (p2.minus p1).length < tolerance)
      (hcross : Intersection.line2line (p1, c1) (p2, c2) = some crossing)
      (hahead : ¬ (c1.minus p1).dot (crossing.p.minus p1) < 0)
      (hfail : BiArc.findCenter p1 c1 (BiArc.jointPoint p1 p2 crossing.p) = none ∨
        BiArc.findCenter p2 c2 (BiArc.jointPoint p1 p2 crossing.p) = none)
      (hhalf : half ∈ BiArc.halves p1 c1 c2 p2) :
      BiArc.MonoCall ⟨p1, c1, c2, p2, tolerance, depth⟩
        ⟨half.s, half.c1, half.c2, half.e, tolerance, depth⟩
  | splitSmallRadius (p1 c1 c2 p2 : Vector2d ℝ) (tolerance : ℝ) (depth : ℕ)
      (crossing : LineSegIntersection ℝ) (s1 s2 : Vector2d ℝ) (half : BezPoints ℝ)
      (hdepth : ¬ depth > 50)
      (hflat : ¬ CubicBezier.isFlat p1 c1 c2 p2 tolerance)
      (hchord : ¬ (p2.minus p1).length < tolerance)
      (hcross : Intersection.line2line (p1, c1) (p2, c2) = some crossing)
      (hahead : ¬ (c1.minus p1).dot (crossing.p.minus p1) < 0)
      (hs1 : BiArc.findCenter p1 c1 (BiArc.jointPoint p1 p2 crossing.p) = some s1)
      (hs2 : BiArc.findCenter p2 c2 (BiArc.jointPoint p1 p2 crossing.p) = some s2)
      (hg1 : ¬ (p1.minus (BiArc.jointPoint p1 p2 crossing.p)).length < tolerance)
      (hg2 : ¬ (p2.minus (BiArc.jointPoint p1 p2 crossing.p)).length < tolerance)
      (hr : (s1.minus p1).length < tolerance ∨ (s2.minus p2).length < tolerance)
      (hhalf : half ∈ BiArc.halves p1 c1 c2 p2) :
      BiArc.MonoCall ⟨p1, c1, c2, p2, tolerance, depth⟩
        ⟨half.s, half.c1, half.c2, half.e, tolerance, depth⟩
  | splitSampleError (p1 c1 c2 p2 : Vector2d ℝ) (tolerance : ℝ) (depth : ℕ)
      (crossing : LineSegIntersection ℝ) (s1 s2 : Vector2d ℝ) (half : BezPoints ℝ)
      (hdepth : ¬ depth > 50)
      (hflat : ¬ CubicBezier.isFlat p1 c1 c2 p2 tolerance)
      (hchord : ¬ (p2.minus p1).length < tolerance)
      (hcross : Intersection.line2line (p1, c1) (p2, c2) = some crossing)
      (hahead : ¬ (c1.minus p1).dot (crossing.p.minus p1) < 0)
      (hs1 : BiArc.findCenter p1 c1 (BiArc.jointPoint p1 p2 crossing.p) = some s1)
      (hs2 : BiArc.findCenter p2 c2 (BiArc.jointPoint p1 p2 crossing.p) = some s2)
      (hg1 : ¬ (p1.minus (BiArc.jointPoint p1 p2 crossing.p)).length < tolerance)
      (hg2 : ¬ (p2.minus (BiArc.jointPoint p1 p2 crossing.p)).length < tolerance)
      (hr : ¬ ((s1.minus p1).length < tolerance ∨ (s2.minus p2).length < tolerance))
      (herr : (BiArc.sampleMax p1 c1 c2 p2 s1 ((s1.minus p1).length) s2
        ((s2.minus p2).length)).2 > tolerance)
      (hhalf : half ∈
        [(CubicBezier.split p1 c1 c2 p2 (BiArc.sampleMax p1 c1 c2 p2 s1
            ((s1.minus p1).length) s2 ((s2.minus p2).length)).1).1,
         (CubicBezier.split p1 c1 c2 p2 (BiArc.sampleMax p1 c1 c2 p2 s1
            ((s1.minus p1).length) s2 ((s2.minus p2).length)).1).2]) :
      BiArc.MonoCall ⟨p1, c1, c2, p2, tolerance, depth⟩
        ⟨half.s, half.c1, half.c2, half.e, tolerance, depth + 1⟩

noncomputable instance : Inhabited BiarcSeg := ⟨.line default default⟩

/-- A descriptor list spanning `a` to `b`: non-empty (first start `a`, last
end `b`) and endpoint-continuous between consecutive descriptors. -/
def Spans (l : List BiarcSeg) (a b : Vector2d ℝ) : Prop :=
  l.head?.map BiarcSeg.start = some a ∧
    l.getLast?.map BiarcSeg.endPt = some b ∧
    List.Chain' (fun s t => s.endPt = t.start) l

/-- The invariant `oneOrMore` maintains on each endpoint: on the circle of
the given center and radius — or collapsed onto the center itself (the
degenerate midpoint a diametral bisection produces through the source's
normalization of a zero vector). -/
def Circle.onOrAtCenter (center : Vector2d ℝ) (radius : ℝ) (x : Vector2d ℝ) : Prop :=
  Vector2d.distSquared x center = radius * radius ∨ x = center

/-! ## Basic lemmas about the embedded primitives -/

theorem Vector2d.epsilon_pos : (0 : K) < Vector2d.epsilon := by
  unfold Vector2d.epsilon
  norm_num

theorem absVal_sub_comm (x y : K) : absVal (x - y) = absVal (y - x) := by
  unfold absVal
  rcases lt_trichotomy (x - y) 0 with h | h | h
  · rw [if_pos h, if_neg (by linarith)]
    ring
  · rw [if_neg (by linarith), if_neg (by linarith)]
    linarith
  · rw [if_neg (by linarith), if_pos (by linarith)]
    ring

theorem Vector2d.equals_refl (a : Vector2d K) : a.equals a := by
  have h := Vector2d.epsilon_pos (K := K)
  simp [Vector2d.equals, absVal, h]

theorem Vector2d.equals_comm (a b : Vector2d K) : a.equals b ↔ b.equals a := by
  unfold Vector2d.equals
  rw [absVal_sub_comm a.x b.x, absVal_sub_comm a.y b.y]

theorem Vector2d.ne_of_not_equals {a b : Vector2d K} (h : ¬ a.equals b) : a ≠ b :=
  fun he => h (he ▸ Vector2d.equals_refl a)

theorem LASeg.start_reversed (s : LASeg K) : s.reversed.start = s.endPt := by
  cases s <;> rfl

theorem LASeg.endPt_reversed (s : LASeg K) : s.reversed.endPt = s.start := by
  cases s <;> rfl

theorem LASeg.reversed_reversed (s : LASeg K) : s.reversed.reversed = s := by
  cases s <;> simp [LASeg.reversed]

/-! ## The `ArcPath` constructor -/

theorem wrapContinuous_nil : wrapContinuous ([] : List (LASeg K)) := by
  intro i h
  simp at h

/-- The constructor's modular index check, re-read as adjacent-pair chain
continuity plus the wrap-around pair. -/
theorem wrapContinuous_iff (l : List (LASeg K)) (hne : l ≠ []) :
    wrapContinuous l ↔
      (List.Chain' (fun a b => a.endPt.equals b.start) l ∧
        (l.getLast hne).endPt.equals (l.head hne).start) := by
  have hlen : 0 < l.length := List.length_pos.mpr hne
  constructor
  · intro H
    refine ⟨List.chain'_iff_get.mpr fun i h => ?_, ?_⟩
    · have hi : i < l.length := by omega
      have h2 : (i + 1) % l.length = i + 1 := Nat.mod_eq_of_lt (by omega)
      have := H i hi
      simp only [h2] at this
      exact this
    · have := H (l.length - 1) (by omega)
      have h2 : (l.length - 1 + 1) % l.length = 0 := by
        rw [Nat.sub_add_cancel (by omega), Nat.mod_self]
      simp only [h2] at this
      simpa [List.getLast_eq_getElem, List.head_eq_getElem_zero hne,
        List.get_eq_getElem] using this
  · rintro ⟨hc, hw⟩ i h
    by_cases hi : i + 1 < l.length
    · have h2 : (i + 1) % l.length = i + 1 := Nat.mod_eq_of_lt hi
      have := List.chain'_iff_get.mp hc i (by omega)
      simp only [h2]
      exact this
    · have hidx : i = l.length - 1 := by omega
      have h2 : (i + 1) % l.length = 0 := by
        rw [hidx, Nat.sub_add_cancel (by omega), Nat.mod_self]
      simp only [h2]
      subst hidx
      simpa [List.getLast_eq_getElem, List.head_eq_getElem_zero hne,
        List.get_eq_getElem] using hw

theorem nodegen_of_mem_filter {l : List (LASeg K)} {s : LASeg K}
    (hs : s ∈ l.filter (fun s => !decide (s.start.equals s.endPt))) :
    ¬ s.start.equals s.endPt := by
  have h2 := (List.mem_filter.mp hs).2
  simp only [Bool.not_eq_true', decide_eq_false_iff_not] at h2
  exact h2

theorem filter_of_nodegen {l : List (LASeg K)} (h : ∀ s ∈ l, ¬ s.start.equals s.endPt) :
    l.filter (fun s => !decide (s.start.equals s.endPt)) = l :=
  List.filter_eq_self.mpr fun a ha => by simpa using h a ha

theorem ArcPath.make_isSome (segs : List (LASeg K)) :
    (ArcPath.make segs).isSome ↔
      wrapContinuous (segs.filter (fun s => !decide (s.start.equals s.endPt))) := by
  by_cases h : wrapContinuous (segs.filter (fun s => !decide (s.start.equals s.endPt)))
  · simp [ArcPath.make, h]
  · simp [ArcPath.make, h]

theorem ArcPath.make_of_invariants {l : List (LASeg K)}
    (hnd : ∀ s ∈ l, ¬ s.start.equals s.endPt) (hw : wrapContinuous l) :
    ArcPath.make l = some ⟨l, none, none, hnd, hw⟩ := by
  simp only [ArcPath.make, filter_of_nodegen hnd]
  rw [dif_pos hw]

theorem ArcPath.segs_of_make {segs : List (LASeg K)} {p : ArcPath K}
    (h : ArcPath.make segs = some p) :
    p.segs = segs.filter (fun s => !decide (s.start.equals s.endPt)) ∧
      p.cachedBounds = none ∧ p.cachedArea = none := by
  by_cases hw : wrapContinuous (segs.filter (fun s => !decide (s.start.equals s.endPt)))
  · simp only [ArcPath.make] at h
    rw [dif_pos hw] at h
    cases h
    exact ⟨rfl, rfl, rfl⟩
  · simp only [ArcPath.make] at h
    rw [dif_neg hw] at h
    cases h

theorem ArcPath.ext_parts {p q : ArcPath K} (hs : p.segs = q.segs)
    (hb : p.cachedBounds = q.cachedBounds) (ha : p.cachedArea = q.cachedArea) :
    p = q := by
  cases p
  cases q
  cases hs
  cases hb
  cases ha
  rfl

theorem wrap_iff_closed {f : List (LASeg K)}
    (hnd : ∀ s ∈ f, ¬ s.start.equals s.endPt) :
    wrapContinuous f ↔
      (f = [] ∨ (2 ≤ f.length ∧
        List.Chain' (fun a b => a.endPt.equals b.start) f ∧
        ∀ a ∈ f.getLast?, ∀ b ∈ f.head?, a.endPt.equals b.start)) := by
  by_cases hne : f = []
  · rw [hne]
    simp [wrapContinuous_nil]
  · rw [wrapContinuous_iff f hne]
    constructor
    · rintro ⟨hc, hw⟩
      refine Or.inr ⟨?_, hc, ?_⟩
      · have hlen : 0 < f.length := List.length_pos.mpr hne
        rcases Nat.lt_or_ge f.length 2 with h2 | h2
        · exfalso
          have h1 : f.length = 1 := by omega
          obtain ⟨s, hs⟩ := List.length_eq_one.mp h1
          subst hs
          simp at hw
          exact hnd s (by simp) ((Vector2d.equals_comm _ _).mp hw)
        · exact h2
      · intro a ha b hb
        have ha' : f.getLast? = some a := ha
        have hb' : f.head? = some b := hb
        rw [List.getLast?_eq_getLast _ hne] at ha'
        rw [List.head?_eq_head hne] at hb'
        obtain rfl := Option.some.inj ha'
        obtain rfl := Option.some.inj hb'
        exact hw
    · rintro (h | ⟨_, hc, hw⟩)
      · exact absurd h hne
      · exact ⟨hc, hw _ (List.getLast?_eq_getLast _ hne) _ (List.head?_eq_head hne)⟩

/-- C1 (amended): construction succeeds exactly when the filtered sequence is
either empty or closed-and-continuous: more than one segment, every adjacent
pair continuous, AND the wrap-around pair `last.end == first.start`
continuous.  The source's continuity loop indexes the successor modulo the
list length, so it also checks the pair (last, first); open sequences
therefore fail, contrary to the claim (see `c1_counterexample`), and
single-segment sequences always fail because the wrap pair degenerates to
the segment's own endpoints, which the zero-length filter has just ruled
apart. -/
theorem c1_construction_succeeds_iff_closed_continuity (segs : List (LASeg K)) :
    (ArcPath.make segs).isSome ↔
      (segs.filter (fun s => !decide (s.start.equals s.endPt)) = [] ∨
        (2 ≤ (segs.filter (fun s => !decide (s.start.equals s.endPt))).length ∧
          List.Chain' (fun a b => a.endPt.equals b.start)
            (segs.filter (fun s => !decide (s.start.equals s.endPt))) ∧
          ∀ a ∈ (segs.filter (fun s => !decide (s.start.equals s.endPt))).getLast?,
            ∀ b ∈ (segs.filter (fun s => !decide (s.start.equals s.endPt))).head?,
              a.endPt.equals b.start)) := by
  rw [ArcPath.make_isSome]
  exact wrap_iff_closed fun s hs => nodegen_of_mem_filter hs

/-- C1 counterexample: the open but adjacent-continuous sequence
`[Line((0,0),(1,0)), Line((1,0),(2,0))]` is rejected by the constructor
(the claim says it must be accepted), and the spec's discontinuous example
`[Line((0,0),(1,0)), Line((2,0),(3,0))]` is rejected as well. -/
theorem c1_counterexample :
    ArcPath.make [(.line ⟨0, 0⟩ ⟨1, 0⟩ : LASeg ℚ), .line ⟨1, 0⟩ ⟨2, 0⟩] = none ∧
      ArcPath.make [(.line ⟨0, 0⟩ ⟨1, 0⟩ : LASeg ℚ), .line ⟨2, 0⟩ ⟨3, 0⟩] = none := by
  constructor
  · simp only [ArcPath.make]
    have hnd : ∀ s ∈ [(.line ⟨0, 0⟩ ⟨1, 0⟩ : LASeg ℚ), .line ⟨1, 0⟩ ⟨2, 0⟩],
        ¬ s.start.equals s.endPt := by
      intro s hs
      simp only [List.mem_cons, List.not_mem_nil, or_false] at hs
      rcases hs with rfl | rfl <;>
        norm_num [Vector2d.equals, absVal, Vector2d.epsilon, LASeg.start, LASeg.endPt]
    simp only [filter_of_nodegen hnd]
    rw [dif_neg]
    intro H
    have := H 1 (by norm_num)
    norm_num [List.get, Vector2d.equals, absVal, Vector2d.epsilon,
      LASeg.start, LASeg.endPt] at this
  · simp only [ArcPath.make]
    have hnd : ∀ s ∈ [(.line ⟨0, 0⟩ ⟨1, 0⟩ : LASeg ℚ), .line ⟨2, 0⟩ ⟨3, 0⟩],
        ¬ s.start.equals s.endPt := by
      intro s hs
      simp only [List.mem_cons, List.not_mem_nil, or_false] at hs
      rcases hs with rfl | rfl <;>
        norm_num [Vector2d.equals, absVal, Vector2d.epsilon, LASeg.start, LASeg.endPt]
    simp only [filter_of_nodegen hnd]
    rw [dif_neg]
    intro H
    have := H 1 (by norm_num)
    norm_num [List.get, Vector2d.equals, absVal, Vector2d.epsilon,
      LASeg.start, LASeg.endPt] at this

/-- C2: on the closed unit-square path, moving the entry point to the
midpoint (1/2, 0) of segment 0 with tolerance 1/10 does NOT split the
segment: the result is the plain rotation `[s1, s2, s3, s0]`.  The point is
1/2 away from both endpoints of segment 0, far beyond tolerance/2 = 1/20, so
the claim (and the spec) require the split branch; the code's second branch
tests the bare distance `Vector2d.dist(newEntryPoint, splitSeg.end)` as a
boolean — missing `< tolerance / 2` — and therefore fires whenever that
distance is non-zero. -/
theorem c2_entry_point_rotation_skips_split :
    ((ArcPath.make [(.line ⟨0, 0⟩ ⟨1, 0⟩ : LASeg ℚ), .line ⟨1, 0⟩ ⟨1, 1⟩,
        .line ⟨1, 1⟩ ⟨0, 1⟩, .line ⟨0, 1⟩ ⟨0, 0⟩]).bind
      (fun p => p.withNewEntryPoint 0 ⟨1/2, 0⟩ (1/10))).map ArcPath.segs =
    some [(.line ⟨1, 0⟩ ⟨1, 1⟩ : LASeg ℚ), .line ⟨1, 1⟩ ⟨0, 1⟩,
      .line ⟨0, 1⟩ ⟨0, 0⟩, .line ⟨0, 0⟩ ⟨1, 0⟩] := by
  have hnd : ∀ s ∈ [(.line ⟨0, 0⟩ ⟨1, 0⟩ : LASeg ℚ), .line ⟨1, 0⟩ ⟨1, 1⟩,
      .line ⟨1, 1⟩ ⟨0, 1⟩, .line ⟨0, 1⟩ ⟨0, 0⟩], ¬ s.start.equals s.endPt := by
    intro s hs
    simp only [List.mem_cons, List.not_mem_nil, or_false] at hs
    rcases hs with rfl | rfl | rfl | rfl <;>
      norm_num [Vector2d.equals, absVal, Vector2d.epsilon, LASeg.start, LASeg.endPt]
  have hw : wrapContinuous [(.line ⟨0, 0⟩ ⟨1, 0⟩ : LASeg ℚ), .line ⟨1, 0⟩ ⟨1, 1⟩,
      .line ⟨1, 1⟩ ⟨0, 1⟩, .line ⟨0, 1⟩ ⟨0, 0⟩] := by
    intro i h
    simp only [List.length_cons, List.length_nil] at h
    interval_cases i <;>
      norm_num [List.get, Vector2d.equals, absVal, Vector2d.epsilon,
        LASeg.start, LASeg.endPt]
  rw [ArcPath.make_of_invariants hnd hw]
  rw [Option.some_bind]
  have hclosed : (⟨[(.line ⟨0, 0⟩ ⟨1, 0⟩ : LASeg ℚ), .line ⟨1, 0⟩ ⟨1, 1⟩,
      .line ⟨1, 1⟩ ⟨0, 1⟩, .line ⟨0, 1⟩ ⟨0, 0⟩], none, none, hnd, hw⟩ :
      ArcPath ℚ).isClosed := by
    refine ⟨by norm_num, ?_⟩
    norm_num [List.headI, List.getLastI, List.getLastD, LASeg.start, LASeg.endPt,
      Vector2d.equals, absVal, Vector2d.epsilon]
  simp only [ArcPath.withNewEntryPoint]
  rw [if_pos hclosed]
  simp only [List.get?, List.take, List.drop]
  rw [if_neg (by norm_num [Vector2d.distLt, Vector2d.distSquared, LASeg.start])]
  rw [if_pos (by norm_num [Vector2d.distSquared, LASeg.endPt])]
  have hnd2 : ∀ s ∈ [(.line ⟨1, 0⟩ ⟨1, 1⟩ : LASeg ℚ), .line ⟨1, 1⟩ ⟨0, 1⟩,
      .line ⟨0, 1⟩ ⟨0, 0⟩, .line ⟨0, 0⟩ ⟨1, 0⟩], ¬ s.start.equals s.endPt := by
    intro s hs
    simp only [List.mem_cons, List.not_mem_nil, or_false] at hs
    rcases hs with rfl | rfl | rfl | rfl <;>
      norm_num [Vector2d.equals, absVal, Vector2d.epsilon, LASeg.start, LASeg.endPt]
  have hw2 : wrapContinuous [(.line ⟨1, 0⟩ ⟨1, 1⟩ : LASeg ℚ), .line ⟨1, 1⟩ ⟨0, 1⟩,
      .line ⟨0, 1⟩ ⟨0, 0⟩, .line ⟨0, 0⟩ ⟨1, 0⟩] := by
    intro i h
    simp only [List.length_cons, List.length_nil] at h
    interval_cases i <;>
      norm_num [List.get, Vector2d.equals, absVal, Vector2d.epsilon,
        LASeg.start, LASeg.endPt]
  simp only [List.nil_append, List.cons_append, List.append_nil]
  rw [ArcPath.make_of_invariants hnd2 hw2]
  rfl

/-! ## JSON round-trip (C7) -/

theorem LASeg.fromJson_toJson {s : LASeg K} (hv : s.chordOk) :
    LASeg.fromJson s.toJson = some s := by
  cases s with
  | line a b => rfl
  | arc a b r cw =>
    simp only [LASeg.chordOk] at hv
    simp only [LASeg.toJson, LASeg.fromJson, ArcSeg.make]
    rw [if_pos hv]

theorem mapM_fromJson_toJson {l : List (LASeg K)} (h : ∀ s ∈ l, s.chordOk) :
    (l.map LASeg.toJson).mapM LASeg.fromJson = some l := by
  induction l with
  | nil => rfl
  | cons a t ih =>
    rw [List.map_cons, List.mapM_cons]
    rw [LASeg.fromJson_toJson (h a (List.mem_cons_self a t))]
    rw [ih fun s hs => h s (List.mem_cons_of_mem a hs)]
    rfl

/-- C7: decoding the encoded record list of any `ArcPath` whose arcs satisfy
the chord/radius rule reproduces the identical ordered segment sequence
(type, start, end, radius and winding of every segment).  The arc centers,
which the source re-derives in the `ArcSeg` constructor, are functions of
exactly these four round-tripped fields (`LASeg.center?`), so they are
reproduced as well.  The caches are not round-tripped: the decoded path has
fresh null caches. -/
theorem c7_json_round_trip (p : ArcPath K) (hv : ∀ s ∈ p.segs, s.chordOk) :
    (ArcPath.fromJson p.toJson).map ArcPath.segs = some p.segs := by
  unfold ArcPath.fromJson ArcPath.toJson
  rw [mapM_fromJson_toJson hv]
  show (ArcPath.make p.segs).map ArcPath.segs = some p.segs
  rw [ArcPath.make_of_invariants p.nodegen p.continuous]
  rfl

/-- C7 witness: the concrete four-quarter-arc unit circle (whose first
segment is the spec's example record) round-trips. -/
theorem c7_witness :
    (ArcPath.fromJson qcircle.toJson).map ArcPath.segs = some qcircle.segs :=
  c7_json_round_trip qcircle (by
    intro s hs
    simp only [qcircle, List.mem_cons, List.not_mem_nil, or_false] at hs
    rcases hs with rfl | rfl | rfl | rfl <;>
      norm_num [LASeg.chordOk, Circle.centerExists, Vector2d.distSquared])

/-! ## Reversal involution (C8) -/

theorem nodegen_reversed {l : List (LASeg K)}
    (h : ∀ s ∈ l, ¬ s.start.equals s.endPt) :
    ∀ s ∈ (l.map LASeg.reversed).reverse, ¬ s.start.equals s.endPt := by
  intro s hs
  rw [List.mem_reverse, List.mem_map] at hs
  obtain ⟨t, ht, rfl⟩ := hs
  rw [LASeg.start_reversed, LASeg.endPt_reversed]
  intro he
  exact h t ht ((Vector2d.equals_comm _ _).mp he)

theorem wrap_reversed {l : List (LASeg K)}
    (hnd : ∀ s ∈ l, ¬ s.start.equals s.endPt) (hw : wrapContinuous l) :
    wrapContinuous ((l.map LASeg.reversed).reverse) := by
  rw [wrap_iff_closed (nodegen_reversed hnd)]
  rw [wrap_iff_closed hnd] at hw
  rcases hw with h | ⟨h2, hc, hlh⟩
  · left
    rw [h]
    rfl
  · right
    refine ⟨by simpa using h2, ?_, ?_⟩
    · rw [List.chain'_reverse]
      rw [List.chain'_map]
      exact hc.imp fun a b hab => by
        simp only [Function.flip_def, LASeg.start_reversed, LASeg.endPt_reversed]
        exact (Vector2d.equals_comm _ _).mp hab
    · intro a ha b hb
      rw [List.getLast?_reverse, List.head?_map] at ha
      rw [List.head?_reverse, List.getLast?_map] at hb
      rw [Option.mem_def, Option.map_eq_some'] at ha hb
      obtain ⟨a0, ha0, rfl⟩ := ha
      obtain ⟨b0, hb0, rfl⟩ := hb
      rw [LASeg.start_reversed, LASeg.endPt_reversed]
      exact (Vector2d.equals_comm _ _).mp (hlh b0 hb0 a0 ha0)

theorem reverse_map_reversed_involutive (l : List (LASeg K)) :
    (((l.map LASeg.reversed).reverse.map LASeg.reversed)).reverse = l := by
  rw [← List.map_reverse, List.reverse_reverse, List.map_map]
  simp [Function.comp_def, LASeg.reversed_reversed]

/-- C8: reversing an `ArcPath` twice restores the original path — same
ordered segment sequence (hence, over exact arithmetic, the same derived
centers) and the same caches; a single `reversed()` keeps the cached bounds
unchanged and negates the cached area. -/
theorem c8_reversal_involution (p : ArcPath K) :
    p.reversed.bind ArcPath.reversed = some p ∧
      p.reversed.map ArcPath.cachedArea = some (p.cachedArea.map (fun a => -a)) ∧
      p.reversed.map ArcPath.cachedBounds = some p.cachedBounds := by
  have hnd1 := nodegen_reversed p.nodegen
  have hw1 := wrap_reversed p.nodegen p.continuous
  have h1 : p.reversed = some ⟨(p.segs.map LASeg.reversed).reverse,
      p.cachedBounds, p.cachedArea.map (fun a => -a), hnd1, hw1⟩ := by
    unfold ArcPath.reversed
    rw [ArcPath.make_of_invariants hnd1 hw1]
    rfl
  refine ⟨?_, by rw [h1]; rfl, by rw [h1]; rfl⟩
  rw [h1, Option.some_bind]
  unfold ArcPath.reversed
  have hback := reverse_map_reversed_involutive p.segs
  have h2 : ArcPath.make ((((p.segs.map LASeg.reversed).reverse).map LASeg.reversed).reverse) =
      some ⟨p.segs, none, none, p.nodegen, p.continuous⟩ := by
    rw [show ((((p.segs.map LASeg.reversed).reverse).map LASeg.reversed).reverse) = p.segs
      from hback]
    exact ArcPath.make_of_invariants p.nodegen p.continuous
  rw [h2]
  simp only [Option.map_some']
  refine congrArg some (ArcPath.ext_parts rfl rfl ?_)
  cases h : p.cachedArea <;> simp

/-! ## Empty-path bounds (C10) -/

/-- C10: `BoundingBox.merge` of an empty list is null, and `getBounds()` on a
constructed `ArcPath` whose segment list came out empty (for instance after
the zero-length filter removed everything) evaluates to that null merge
result even though the source's declared return type promises a
`BoundingBox`. -/
theorem c10_empty_bounds_null :
    (∀ (K : Type) [LinearOrderedField K],
        BoundingBox.merge ([] : List (BoundingBox K)) = none) ∧
      ∀ (segs : List (LASeg ℝ)) (p : ArcPath ℝ), ArcPath.make segs = some p →
        p.segs = [] → p.getBounds = some none := by
  constructor
  · intro K _
    rfl
  · intro segs p hmk hsegs
    obtain ⟨-, hb, -⟩ := ArcPath.segs_of_make hmk
    unfold ArcPath.getBounds
    rw [hb, hsegs]
    rfl

/-! ## Exact geometry of `Circle.findCenter` (C6) -/

theorem Vector2d.ext' {a b : Vector2d K} (hx : a.x = b.x) (hy : a.y = b.y) : a = b := by
  cases a
  cases b
  cases hx
  cases hy
  rfl

theorem Vector2d.lengthSquared_nonneg (a : Vector2d ℝ) : 0 ≤ a.lengthSquared := by
  unfold Vector2d.lengthSquared
  nlinarith [mul_self_nonneg a.x, mul_self_nonneg a.y]

theorem Vector2d.distSquared_nonneg (a b : Vector2d ℝ) : 0 ≤ Vector2d.distSquared a b := by
  unfold Vector2d.distSquared
  nlinarith [mul_self_nonneg (a.x - b.x), mul_self_nonneg (a.y - b.y)]

theorem Vector2d.lengthSquared_minus (a b : Vector2d K) :
    (b.minus a).lengthSquared = Vector2d.distSquared a b := by
  simp only [Vector2d.minus, Vector2d.lengthSquared, Vector2d.distSquared]
  ring

theorem Vector2d.distSquared_eq_zero_iff {a b : Vector2d ℝ} :
    Vector2d.distSquared a b = 0 ↔ a = b := by
  unfold Vector2d.distSquared
  constructor
  · intro h
    have hx : (a.x - b.x) * (a.x - b.x) = 0 ∧ (a.y - b.y) * (a.y - b.y) = 0 := by
      constructor <;> nlinarith [mul_self_nonneg (a.x - b.x), mul_self_nonneg (a.y - b.y)]
    exact Vector2d.ext' (by nlinarith [hx.1]) (by nlinarith [hx.2])
  · intro h
    rw [h]
    ring

theorem Vector2d.distSquared_pos {a b : Vector2d ℝ} (h : a ≠ b) :
    0 < Vector2d.distSquared a b :=
  lt_of_le_of_ne (Vector2d.distSquared_nonneg a b)
    (fun he => h (Vector2d.distSquared_eq_zero_iff.mp he.symm))

theorem Circle.findCenter_isSome_iff (p1 p2 : Vector2d ℝ) (r : ℝ) (cw : Bool) :
    (Circle.findCenter p1 p2 r cw).isSome ↔ Circle.centerExists p1 p2 r := by
  simp only [Circle.findCenter, Circle.centerExists, Vector2d.length,
    Vector2d.lengthSquared_minus]
  by_cases h : Real.sqrt (Vector2d.distSquared p1 p2) ≥ r * 2
  · rw [if_pos h]
    simp only [Option.isSome_none, Bool.false_eq_true, false_iff, not_and, not_lt]
    intro h2r
    nlinarith [Real.sq_sqrt (Vector2d.distSquared_nonneg p1 p2),
      Real.sqrt_nonneg (Vector2d.distSquared p1 p2)]
  · rw [if_neg h]
    push_neg at h
    have h2r : 0 < r * 2 := lt_of_le_of_lt (Real.sqrt_nonneg _) h
    simp only [Option.isSome_some, true_iff]
    refine ⟨h2r, ?_⟩
    nlinarith [Real.sq_sqrt (Vector2d.distSquared_nonneg p1 p2),
      Real.sqrt_nonneg (Vector2d.distSquared p1 p2)]

/-- What the returned center satisfies, exactly: for distinct endpoints it is
at squared distance `r²` from both and the radius vectors to the two
endpoints have dot product `r² - chord²/2`; for coincident endpoints the
formula collapses to the input point itself. -/
theorem Circle.findCenter_spec {p1 p2 : Vector2d ℝ} {r : ℝ} {cw : Bool}
    {c : Vector2d ℝ} (h : Circle.findCenter p1 p2 r cw = some c) :
    (p1 ≠ p2 → Vector2d.distSquared c p1 = r * r ∧ Vector2d.distSquared c p2 = r * r ∧
      (p1.minus c).dot (p2.minus c) = r * r - Vector2d.distSquared p1 p2 / 2) ∧
      (p1 = p2 → c = p1) := by
  simp only [Circle.findCenter, Vector2d.length, Vector2d.lengthSquared_minus] at h
  by_cases hcond : Real.sqrt (Vector2d.distSquared p1 p2) ≥ r * 2
  · rw [if_pos hcond] at h
    cases h
  · rw [if_neg hcond] at h
    push_neg at hcond
    set S := Vector2d.distSquared p1 p2 with hSdef
    have hS : 0 ≤ S := Vector2d.distSquared_nonneg p1 p2
    set q := Real.sqrt S with hqdef
    have hq2 : q * q = S := Real.mul_self_sqrt hS
    have hqnn : 0 ≤ q := Real.sqrt_nonneg S
    have hrad : 0 ≤ r * r - q * q / 4 := by nlinarith
    set a := Real.sqrt (r * r - q * q / 4) with hadef
    have ha2 : a * a = r * r - q * q / 4 := Real.mul_self_sqrt hrad
    have hSval : S = (p1.x - p2.x) * (p1.x - p2.x) + (p1.y - p2.y) * (p1.y - p2.y) := by
      rw [hSdef]
      rfl
    constructor
    · intro hne
      have hSpos : 0 < S := Vector2d.distSquared_pos hne
      have hqne : q ≠ 0 := ne_of_gt (Real.sqrt_pos.mpr hSpos)
      set n := ((p2.minus p1).multiply (1 / q)).rot90 cw with hndef
      have hnl : n.x * n.x + n.y * n.y = 1 := by
        cases cw <;>
        · simp only [hndef, Vector2d.rot90, Vector2d.multiply, Vector2d.minus]
          field_simp
          linear_combination (-1 : ℝ) * hq2 - hSval
      have hno : (p2.x - p1.x) * n.x + (p2.y - p1.y) * n.y = 0 := by
        cases cw <;>
        · simp [hndef, Vector2d.rot90, Vector2d.multiply, Vector2d.minus]
          ring
      obtain rfl : _ = c := Option.some.inj h
      refine ⟨?_, ?_, ?_⟩ <;>
        simp only [Vector2d.distSquared, Vector2d.dot, Vector2d.minus, Vector2d.plus,
          Vector2d.multiply]
      · linear_combination a * hno + a * a * hnl + ha2 - hq2 / 4 - hSval / 4
      · linear_combination (-a) * hno + a * a * hnl + ha2 - hq2 / 4 - hSval / 4
      · linear_combination a * a * hnl + ha2 - hq2 / 4 + hSval / 4
    · intro heq
      obtain rfl : _ = c := Option.some.inj h
      subst heq
      refine Vector2d.ext' ?_ ?_ <;>
      · cases cw <;>
        · simp [Vector2d.plus, Vector2d.minus, Vector2d.multiply, Vector2d.rot90]
          ring

/-- C6 (amended): `findCenter` returns no center exactly when the chord is at
least `2 * radius` long; when it returns a center AND the two points are
distinct, that center is at distance `radius` from both (exact arithmetic);
and `ArcSeg` construction fails exactly when `findCenter` returns no center.
The amendment is the distinctness proviso: with `p1 = p2` (chord 0, so a
center is returned for any positive radius) the source normalizes a
zero-length chord vector, 0/0, and the returned point is not at distance
`radius` — see `c6_counterexample`. -/
theorem c6_find_center_characterization (p1 p2 : Vector2d ℝ) (radius : ℝ)
    (clockwise : Bool) :
    (Circle.findCenter p1 p2 radius clockwise = none ↔
      (p2.minus p1).length ≥ radius * 2) ∧
      (∀ c, Circle.findCenter p1 p2 radius clockwise = some c → p1 ≠ p2 →
        Vector2d.dist c p1 = radius ∧ Vector2d.dist c p2 = radius) ∧
      (ArcSeg.make p1 p2 radius clockwise = none ↔
        Circle.findCenter p1 p2 radius clockwise = none) := by
  refine ⟨?_, ?_, ?_⟩
  · simp only [Circle.findCenter]
    by_cases h : (p2.minus p1).length ≥ radius * 2
    · rw [if_pos h]
      simp [h]
    · rw [if_neg h]
      simp [h]
  · intro c h hne
    have hsome : (Circle.findCenter p1 p2 radius clockwise).isSome := by
      rw [h]
      rfl
    have hex := (Circle.findCenter_isSome_iff p1 p2 radius clockwise).mp hsome
    have hr : 0 ≤ radius := by
      have := hex.1
      linarith
    obtain ⟨hd1, hd2, -⟩ := (Circle.findCenter_spec h).1 hne
    constructor
    · rw [Vector2d.dist, hd1]
      exact Real.sqrt_mul_self hr
    · rw [Vector2d.dist, hd2]
      exact Real.sqrt_mul_self hr
  · unfold ArcSeg.make
    by_cases hex : Circle.centerExists p1 p2 radius
    · rw [if_pos hex]
      have : (Circle.findCenter p1 p2 radius clockwise).isSome :=
        (Circle.findCenter_isSome_iff p1 p2 radius clockwise).mpr hex
      simp [Option.isSome_iff_ne_none.mp this]
    · rw [if_neg hex]
      have : ¬ (Circle.findCenter p1 p2 radius clockwise).isSome := fun hs =>
        hex ((Circle.findCenter_isSome_iff p1 p2 radius clockwise).mp hs)
      simp [Option.not_isSome_iff_eq_none.mp this]

/-- C6 counterexample: `findCenter((0,0), (0,0), 1, false)` — zero chord,
well below `2 * radius` — returns a center (the exact embedding yields
(0,0); the floating source yields a NaN point through 0/0), and no returned
value can be at distance 1 from (0,0) as the claim demands, the distance
being 0. -/
theorem c6_counterexample :
    Circle.findCenter ⟨0, 0⟩ ⟨0, 0⟩ 1 false = some ⟨0, 0⟩ ∧
      Vector2d.dist (⟨0, 0⟩ : Vector2d ℝ) ⟨0, 0⟩ ≠ 1 := by
  constructor
  · have hmin : (Vector2d.minus (⟨0, 0⟩ : Vector2d ℝ) ⟨0, 0⟩) = ⟨0, 0⟩ := by
      simp [Vector2d.minus]
    have hlen : Vector2d.length (⟨0, 0⟩ : Vector2d ℝ) = 0 := by
      simp [Vector2d.length, Vector2d.lengthSquared]
    simp only [Circle.findCenter, hmin, hlen]
    rw [if_neg (by norm_num)]
    refine congrArg some (Vector2d.ext' ?_ ?_) <;>
      simp [Vector2d.plus, Vector2d.multiply, Vector2d.rot90]
  · simp [Vector2d.dist, Vector2d.distSquared]

/-- C6 witness: the spec's round-trip example — the center of the circle of
radius 1 through (1,0) then (0,1) counter-clockwise reconstructs to exactly
(0,0). -/
theorem c6_witness :
    Circle.findCenter ⟨1, 0⟩ ⟨0, 1⟩ 1 false = some ⟨0, 0⟩ := by
  have h2 : Real.sqrt 2 * Real.sqrt 2 = 2 := Real.mul_self_sqrt (by norm_num)
  have hs2nn : (0 : ℝ) ≤ Real.sqrt 2 := Real.sqrt_nonneg 2
  have hlt : Real.sqrt 2 < 2 := by nlinarith
  have hne2 : Real.sqrt 2 ≠ 0 := by nlinarith
  have hsh2 : Real.sqrt (1 / 2) * Real.sqrt (1 / 2) = 1 / 2 :=
    Real.mul_self_sqrt (by norm_num)
  have hmix : Real.sqrt (1 / 2) * Real.sqrt 2 = 1 := by
    rw [← Real.sqrt_mul (by norm_num : (0 : ℝ) ≤ 1 / 2)]
    norm_num
  have hmin : (Vector2d.minus (⟨0, 1⟩ : Vector2d ℝ) ⟨1, 0⟩) = ⟨-1, 1⟩ := by
    norm_num [Vector2d.minus]
  have hlen : Vector2d.length (⟨-1, 1⟩ : Vector2d ℝ) = Real.sqrt 2 := by
    simp only [Vector2d.length, Vector2d.lengthSquared]
    norm_num
  simp only [Circle.findCenter, hmin, hlen]
  rw [if_neg (by push_neg; linarith)]
  rw [show (1 * 1 - Real.sqrt 2 * Real.sqrt 2 / 4 : ℝ) = 1 / 2 by rw [h2]; norm_num]
  refine congrArg some (Vector2d.ext' ?_ ?_) <;>
  · simp only [Vector2d.plus, Vector2d.multiply, Vector2d.rot90, if_neg]
    simp only [Bool.false_eq_true, if_false]
    field_simp
    nlinarith [hsh2, hmix, h2]

/-! ## Endpoint preservation of the BiArc engine (C4) -/

theorem except_bind_ok {α β ε : Type} {e : Except ε α} {f : α → Except ε β} {b : β}
    (h : (e >>= f) = .ok b) : ∃ a, e = .ok a ∧ f a = .ok b := by
  cases e with
  | error err => exact Except.noConfusion h
  | ok a => exact ⟨a, rfl, h⟩

theorem spans_of_singleton {x : BiarcSeg} {a b : Vector2d ℝ}
    (hs : x.start = a) (he : x.endPt = b) : Spans [x] a b := by
  refine ⟨?_, ?_, ?_⟩ <;> simp [hs, he]

theorem spans_append {l1 l2 : List BiarcSeg} {a m b : Vector2d ℝ}
    (h1 : Spans l1 a m) (h2 : Spans l2 m b) : Spans (l1 ++ l2) a b := by
  obtain ⟨h1h, h1l, h1c⟩ := h1
  obtain ⟨h2h, h2l, h2c⟩ := h2
  have hne1 : l1 ≠ [] := by rintro rfl; simp at h1h
  have hne2 : l2 ≠ [] := by rintro rfl; simp at h2h
  refine ⟨?_, ?_, ?_⟩
  · rw [List.head?_append_of_ne_nil _ hne1]
    exact h1h
  · rw [List.getLast?_append_of_ne_nil _ hne2]
    exact h2l
  · refine h1c.append h2c fun x hx y hy => ?_
    have hx' : Option.map BiarcSeg.endPt l1.getLast? = some x.endPt := by
      rw [Option.mem_def.mp hx]
      rfl
    have hy' : Option.map BiarcSeg.start l2.head? = some y.start := by
      rw [Option.mem_def.mp hy]
      rfl
    rw [h1l] at hx'
    rw [h2h] at hy'
    rw [(Option.some.inj hx').symm, (Option.some.inj hy').symm]

theorem arcOrLine_start (s e c : Vector2d ℝ) (r : ℝ) (cw : Bool) (tol : ℝ) :
    (BiArc.arcOrLine s e c r cw tol).start = s := by
  unfold BiArc.arcOrLine
  split <;> rfl

theorem arcOrLine_endPt (s e c : Vector2d ℝ) (r : ℝ) (cw : Bool) (tol : ℝ) :
    (BiArc.arcOrLine s e c r cw tol).endPt = e := by
  unfold BiArc.arcOrLine
  split <;> rfl

theorem singleArcOrLine_spans (p1 p2 ic : Vector2d ℝ) (r tol : ℝ) :
    Spans (BiArc.singleArcOrLine p1 p2 ic r tol) p1 p2 := by
  unfold BiArc.singleArcOrLine
  cases hL : Intersection.arc2arc p1 r p2 r with
  | nil => exact spans_of_singleton rfl rfl
  | cons x rest =>
    cases rest with
    | nil => exact spans_of_singleton rfl rfl
    | cons y rest2 =>
      cases rest2 with
      | nil =>
        exact spans_of_singleton (arcOrLine_start _ _ _ _ _ _) (arcOrLine_endPt _ _ _ _ _ _)
      | cons z t => exact spans_of_singleton rfl rfl

theorem splitInHalf_spans {n : ℕ} {p1 c1 c2 p2 : Vector2d ℝ} {tol : ℝ} {depth : ℕ}
    {l : List BiarcSeg}
    (ih : ∀ (q1 q2 q3 q4 : Vector2d ℝ) (t : ℝ) (d : ℕ) (l' : List BiarcSeg),
      BiArc.fromMonotoneBezier n q1 q2 q3 q4 t d = .ok l' → Spans l' q1 q4)
    (h : BiArc.splitInHalf n p1 c1 c2 p2 tol depth = .ok l) : Spans l p1 p2 := by
  unfold BiArc.splitInHalf at h
  obtain ⟨l1, h1, h⟩ := except_bind_ok h
  obtain ⟨l2, h2, h⟩ := except_bind_ok h
  obtain rfl := Except.ok.inj h
  exact spans_append (ih _ _ _ _ _ _ _ h1) (ih _ _ _ _ _ _ _ h2)

theorem fromMonotone_spans (fuel : ℕ) :
    ∀ (p1 c1 c2 p2 : Vector2d ℝ) (tol : ℝ) (depth : ℕ) (l : List BiarcSeg),
      BiArc.fromMonotoneBezier fuel p1 c1 c2 p2 tol depth = .ok l → Spans l p1 p2 := by
  induction fuel with
  | zero =>
    intro p1 c1 c2 p2 tol depth l h
    rw [BiArc.fromMonotoneBezier] at h
    exact Except.noConfusion h
  | succ n ih =>
    intro p1 c1 c2 p2 tol depth l h
    rw [BiArc.fromMonotoneBezier] at h
    by_cases hd : depth > 50
    · rw [if_pos hd] at h
      exact Except.noConfusion h
    rw [if_neg hd] at h
    by_cases hf : CubicBezier.isFlat p1 c1 c2 p2 tol
    · rw [if_pos hf] at h
      obtain rfl := Except.ok.inj h
      exact spans_of_singleton rfl rfl
    rw [if_neg hf] at h
    by_cases hch : (p2.minus p1).length < tol
    · rw [if_pos hch] at h
      obtain rfl := Except.ok.inj h
      exact spans_of_singleton rfl rfl
    rw [if_neg hch] at h
    cases hcr : Intersection.line2line (p1, c1) (p2, c2) with
    | none =>
      rw [hcr] at h
      simp only [] at h
      exact splitInHalf_spans ih h
    | some crossing =>
      rw [hcr] at h
      simp only [] at h
      by_cases hbeh : (c1.minus p1).dot (crossing.p.minus p1) < 0
      · rw [if_pos hbeh] at h
        exact splitInHalf_spans ih h
      rw [if_neg hbeh] at h
      cases hs1 : BiArc.findCenter p1 c1 (BiArc.jointPoint p1 p2 crossing.p) with
      | none =>
        rw [hs1] at h
        cases hs2 : BiArc.findCenter p2 c2 (BiArc.jointPoint p1 p2 crossing.p) <;>
        · rw [hs2] at h
          simp only [] at h
          exact splitInHalf_spans ih h
      | some s1 =>
        rw [hs1] at h
        cases hs2 : BiArc.findCenter p2 c2 (BiArc.jointPoint p1 p2 crossing.p) with
        | none =>
          rw [hs2] at h
          simp only [] at h
          exact splitInHalf_spans ih h
        | some s2 =>
          rw [hs2] at h
          simp only [] at h
          by_cases hg1 : (p1.minus (BiArc.jointPoint p1 p2 crossing.p)).length < tol
          · rw [if_pos hg1] at h
            obtain rfl := Except.ok.inj h
            exact singleArcOrLine_spans _ _ _ _ _
          rw [if_neg hg1] at h
          by_cases hg2 : (p2.minus (BiArc.jointPoint p1 p2 crossing.p)).length < tol
          · rw [if_pos hg2] at h
            obtain rfl := Except.ok.inj h
            exact singleArcOrLine_spans _ _ _ _ _
          rw [if_neg hg2] at h
          by_cases hr : (s1.minus p1).length < tol ∨ (s2.minus p2).length < tol
          · rw [if_pos hr] at h
            exact splitInHalf_spans ih h
          rw [if_neg hr] at h
          by_cases herr : (BiArc.sampleMax p1 c1 c2 p2 s1 ((s1.minus p1).length) s2
              ((s2.minus p2).length)).2 > tol
          · rw [if_pos herr] at h
            obtain ⟨l1, h1, h⟩ := except_bind_ok h
            obtain ⟨l2, h2, h⟩ := except_bind_ok h
            obtain rfl := Except.ok.inj h
            exact spans_append (ih _ _ _ _ _ _ _ h1) (ih _ _ _ _ _ _ _ h2)
          · rw [if_neg herr] at h
            obtain rfl := Except.ok.inj h
            refine ⟨?_, ?_, ?_⟩
            · simp [arcOrLine_start]
            · simp [arcOrLine_endPt]
            · simp [List.chain'_cons, arcOrLine_start, arcOrLine_endPt]

theorem fromBezier_two_halves_spans {n : ℕ} {p1 c1 c2 p2 : Vector2d ℝ} {tol : ℝ}
    {t : ℝ} {l : List BiarcSeg}
    (h : (do
      let l1 ← BiArc.fromMonotoneBezier n (CubicBezier.split p1 c1 c2 p2 t).1.s
        (CubicBezier.split p1 c1 c2 p2 t).1.c1 (CubicBezier.split p1 c1 c2 p2 t).1.c2
        (CubicBezier.split p1 c1 c2 p2 t).1.e tol 0
      let l2 ← BiArc.fromMonotoneBezier n (CubicBezier.split p1 c1 c2 p2 t).2.s
        (CubicBezier.split p1 c1 c2 p2 t).2.c1 (CubicBezier.split p1 c1 c2 p2 t).2.c2
        (CubicBezier.split p1 c1 c2 p2 t).2.e tol 0
      Except.ok (l1 ++ l2) : Except BiArcErr (List BiarcSeg)) = .ok l) :
    Spans l p1 p2 := by
  obtain ⟨l1, h1, h⟩ := except_bind_ok h
  obtain ⟨l2, h2, h⟩ := except_bind_ok h
  obtain rfl := Except.ok.inj h
  exact spans_append (fromMonotone_spans n _ _ _ _ _ _ _ h1)
    (fromMonotone_spans n _ _ _ _ _ _ _ h2)

theorem fromBezierTail_spans {n : ℕ} {p1 c1 c2 p2 : Vector2d ℝ} {tol : ℝ}
    {l : List BiarcSeg} (h : BiArc.fromBezierTail n p1 c1 c2 p2 tol = .ok l) :
    Spans l p1 p2 := by
  unfold BiArc.fromBezierTail at h
  by_cases hf : CubicBezier.isFlat p1 c1 c2 p2 tol
  · rw [if_pos hf] at h
    obtain rfl := Except.ok.inj h
    exact spans_of_singleton rfl rfl
  rw [if_neg hf] at h
  cases hip : CubicBezier.inflectionPoints p1 c1 c2 p2 with
  | nil =>
    rw [hip] at h
    simp only [] at h
    exact fromMonotone_spans n _ _ _ _ _ _ _ h
  | cons t0 rest =>
    cases rest with
    | nil =>
      rw [hip] at h
      simp only [] at h
      exact fromBezier_two_halves_spans h
    | cons t1 rest2 =>
      cases rest2 with
      | nil =>
        rw [hip] at h
        simp only [] at h
        obtain ⟨l1, h1, h⟩ := except_bind_ok h
        obtain ⟨l2, h2, h⟩ := except_bind_ok h
        obtain ⟨l3, h3, h⟩ := except_bind_ok h
        obtain rfl := Except.ok.inj h
        rw [List.append_assoc]
        exact spans_append (fromMonotone_spans n _ _ _ _ _ _ _ h1)
          (spans_append (fromMonotone_spans n _ _ _ _ _ _ _ h2)
            (fromMonotone_spans n _ _ _ _ _ _ _ h3))
      | cons t2 ts =>
        rw [hip] at h
        simp only [] at h
        exact fromMonotone_spans n _ _ _ _ _ _ _ h

/-- C4: whenever `fromBezier` returns normally, the descriptor list is
non-empty, begins at the curve's start, ends at the curve's end, and every
consecutive pair of descriptors shares its junction point. -/
theorem c4_endpoint_preservation (fuel : ℕ) (p1 c1 c2 p2 : Vector2d ℝ)
    (tolerance : ℝ) (l : List BiarcSeg)
    (h : BiArc.fromBezier fuel p1 c1 c2 p2 tolerance = .ok l) :
    l ≠ [] ∧ l.head?.map BiarcSeg.start = some p1 ∧
      l.getLast?.map BiarcSeg.endPt = some p2 ∧
      List.Chain' (fun s t => s.endPt = t.start) l := by
  have hspan : Spans l p1 p2 := by
    unfold BiArc.fromBezier at h
    by_cases heq : p1.equals p2
    · rw [if_pos heq] at h
      exact fromBezier_two_halves_spans h
    rw [if_neg heq] at h
    cases hcr : Intersection.line2line (p1, c1) (p2, c2) with
    | none =>
      rw [hcr] at h
      simp only [] at h
      exact fromBezierTail_spans h
    | some handleCrossing =>
      rw [hcr] at h
      simp only [] at h
      by_cases hir : handleCrossing.inRange
      · rw [if_pos hir] at h
        exact fromBezier_two_halves_spans h
      · rw [if_neg hir] at h
        exact fromBezierTail_spans h
  obtain ⟨hh, hl, hc⟩ := hspan
  exact ⟨by rintro rfl; simp at hh, hh, hl, hc⟩

/-- C4 witness: the spec's flat-curve fast path — the exactly collinear
curve (0,0),(1,0),(2,0),(3,0) at tolerance 1 yields exactly one line
descriptor from (0,0) to (3,0); applying the theorem to it discharges its
hypothesis at a concrete input. -/
theorem c4_witness :
    BiArc.fromBezier 0 ⟨0, 0⟩ ⟨1, 0⟩ ⟨2, 0⟩ ⟨3, 0⟩ 1 =
        .ok [BiArc.line ⟨0, 0⟩ ⟨3, 0⟩] ∧
      ([BiArc.line (⟨0, 0⟩ : Vector2d ℝ) ⟨3, 0⟩] ≠ [] ∧
        [BiArc.line (⟨0, 0⟩ : Vector2d ℝ) ⟨3, 0⟩].head?.map BiarcSeg.start =
          some ⟨0, 0⟩ ∧
        [BiArc.line (⟨0, 0⟩ : Vector2d ℝ) ⟨3, 0⟩].getLast?.map BiarcSeg.endPt =
          some ⟨3, 0⟩ ∧
        List.Chain' (fun s t => s.endPt = t.start)
          [BiArc.line (⟨0, 0⟩ : Vector2d ℝ) ⟨3, 0⟩]) := by
  have hcr : Intersection.line2line ((⟨0, 0⟩ : Vector2d ℝ), ⟨1, 0⟩)
      ((⟨3, 0⟩ : Vector2d ℝ), ⟨2, 0⟩) = none := by
    unfold Intersection.line2line
    rw [if_pos]
    norm_num [Vector2d.minus, absVal]
  have hflat : CubicBezier.isFlat (⟨0, 0⟩ : Vector2d ℝ) ⟨1, 0⟩ ⟨2, 0⟩ ⟨3, 0⟩ 1 := by
    norm_num [CubicBezier.isFlat, CubicBezier.lineEquation, CubicBezier.cpWithinTolerance,
      CubicBezier.pointToLine, CubicBezier.isBetween, Vector2d.minus, Vector2d.cross,
      Vector2d.distSquared]
  have heval : BiArc.fromBezier 0 ⟨0, 0⟩ ⟨1, 0⟩ ⟨2, 0⟩ ⟨3, 0⟩ 1 =
      .ok [BiArc.line ⟨0, 0⟩ ⟨3, 0⟩] := by
    unfold BiArc.fromBezier
    rw [if_neg (by norm_num [Vector2d.equals, absVal, Vector2d.epsilon])]
    rw [hcr]
    unfold BiArc.fromBezierTail
    rw [if_pos hflat]
  exact ⟨heval, c4_endpoint_preservation 0 _ _ _ _ _ _ heval⟩

/-! ## The arc bisector `oneOrMore` (C5, C9) -/

theorem Vector2d.lengthSquared_multiply (v : Vector2d ℝ) (s : ℝ) :
    (v.multiply s).lengthSquared = s * s * v.lengthSquared := by
  simp only [Vector2d.multiply, Vector2d.lengthSquared]
  ring

theorem Vector2d.lengthSquared_eq_zero_iff {v : Vector2d ℝ} :
    v.lengthSquared = 0 ↔ v = ⟨0, 0⟩ := by
  unfold Vector2d.lengthSquared
  constructor
  · intro h
    have hx : v.x * v.x = 0 := by
      nlinarith [mul_self_nonneg v.x, mul_self_nonneg v.y]
    have hy : v.y * v.y = 0 := by
      nlinarith [mul_self_nonneg v.x, mul_self_nonneg v.y]
    exact Vector2d.ext' (mul_self_eq_zero.mp hx) (mul_self_eq_zero.mp hy)
  · rintro rfl
    simp

theorem Vector2d.lengthSquared_normalize {v : Vector2d ℝ} (hv : v.lengthSquared ≠ 0) :
    (v.normalize).lengthSquared = 1 := by
  unfold Vector2d.normalize Vector2d.length
  rw [Vector2d.lengthSquared_multiply]
  have hnn : 0 ≤ v.lengthSquared := Vector2d.lengthSquared_nonneg v
  have hq : Real.sqrt v.lengthSquared * Real.sqrt v.lengthSquared = v.lengthSquared :=
    Real.mul_self_sqrt hnn
  have hqne : Real.sqrt v.lengthSquared ≠ 0 := by
    intro h0
    rw [h0] at hq
    exact hv (by linarith)
  field_simp

theorem Vector2d.normalize_zero : (Vector2d.normalize ⟨0, 0⟩) = ⟨0, 0⟩ := by
  unfold Vector2d.normalize
  refine Vector2d.ext' ?_ ?_ <;> simp [Vector2d.multiply]

/-- The bisection midpoint of `oneOrMore` stays on the circle — or collapses
onto the center when the source normalizes the zero vector of a diametral
pair or of already-degenerate radius vectors. -/
theorem getMidVec_invariant {s e center : Vector2d ℝ} {radius : ℝ} (cw : Bool)
    (hs : Circle.onOrAtCenter center radius s)
    (he : Circle.onOrAtCenter center radius e) :
    Circle.onOrAtCenter center radius
      (center.plus (ArcSeg.getMidVec (s.minus center) (e.minus center) cw)) := by
  have hdist : ∀ w : Vector2d ℝ, Vector2d.distSquared (center.plus w) center = w.lengthSquared := by
    intro w
    simp only [Vector2d.distSquared, Vector2d.plus, Vector2d.lengthSquared]
    ring
  unfold ArcSeg.getMidVec
  by_cases hw : ((s.minus center).plus (e.minus center)).lengthSquared = 0
  · have hw0 : (s.minus center).plus (e.minus center) = ⟨0, 0⟩ :=
      Vector2d.lengthSquared_eq_zero_iff.mp hw
    right
    rw [hw0, Vector2d.normalize_zero]
    have hmul : ∀ r : ℝ, (Vector2d.multiply ⟨0, 0⟩ r) = ⟨0, 0⟩ := by
      intro r
      refine Vector2d.ext' ?_ ?_ <;> simp [Vector2d.multiply]
    simp only []
    split <;>
    · rw [hmul]
      refine Vector2d.ext' ?_ ?_ <;> simp [Vector2d.plus]
  · have hnrm := Vector2d.lengthSquared_normalize hw
    have hlen2 : (s.minus center).length * (s.minus center).length =
        (s.minus center).lengthSquared :=
      Real.mul_self_sqrt (Vector2d.lengthSquared_nonneg _)
    have hsl : (s.minus center).lengthSquared = Vector2d.distSquared s center := by
      simp only [Vector2d.minus, Vector2d.lengthSquared, Vector2d.distSquared]
    rcases hs with hs | hs
    · left
      rw [hdist]
      simp only []
      split <;>
      · rw [Vector2d.lengthSquared_multiply, hnrm]
        linear_combination hlen2 + hsl + hs
    · -- s = center: the scaling factor cs.length is 0, the midpoint is the center
      right
      have hcs : s.minus center = ⟨0, 0⟩ := by
        rw [hs]
        refine Vector2d.ext' ?_ ?_ <;> simp [Vector2d.minus]
      have hlen0 : (s.minus center).length = 0 := by
        rw [Vector2d.length, hcs]
        simp [Vector2d.lengthSquared]
      simp only []
      split <;>
      · rw [hlen0]
        refine Vector2d.ext' ?_ ?_ <;>
          simp [Vector2d.plus, Vector2d.multiply]

theorem distSquared_expand (s e center : Vector2d ℝ) :
    Vector2d.distSquared s e = Vector2d.distSquared s center +
      Vector2d.distSquared e center - 2 * ((s.minus center).dot (e.minus center)) := by
  simp only [Vector2d.distSquared, Vector2d.minus, Vector2d.dot]
  ring

/-- Non-negative span at the re-derived center of every arc `oneOrMore`
emits, under the on-circle-or-at-center invariant. -/
theorem oneOrMore_span (fuel : ℕ) :
    ∀ (s e : Vector2d ℝ) (radius : ℝ) (center : Vector2d ℝ) (cw : Bool) (tol : ℝ)
      (l : List (LASeg ℝ)),
      ArcSeg.oneOrMore fuel s e radius center cw tol = some l →
      Circle.onOrAtCenter center radius s → Circle.onOrAtCenter center radius e →
      ∀ seg ∈ l, ∀ c, seg.center? = some c →
        0 ≤ (seg.start.minus c).dot (seg.endPt.minus c) := by
  induction fuel with
  | zero =>
    intro s e radius center cw tol l h
    rw [ArcSeg.oneOrMore] at h
    exact Option.noConfusion h
  | succ n ih =>
    intro s e radius center cw tol l h hs he
    rw [ArcSeg.oneOrMore] at h
    by_cases hdot : (s.minus center).dot (e.minus center) ≤ 0
    · rw [if_pos hdot] at h
      simp only [] at h
      obtain ⟨l1, h1, h⟩ := Option.bind_eq_some.mp h
      obtain ⟨l2, h2, h⟩ := Option.bind_eq_some.mp h
      obtain rfl := Option.some.inj h
      have hmidinv := getMidVec_invariant cw hs he
      intro seg hseg c hc
      rcases List.mem_append.mp hseg with hm | hm
      · exact ih _ _ _ _ _ _ _ h1 hs hmidinv seg hm c hc
      · exact ih _ _ _ _ _ _ _ h2 hmidinv he seg hm c hc
    · rw [if_neg hdot] at h
      push_neg at hdot
      have hscenter : Vector2d.distSquared s center = radius * radius := by
        rcases hs with hs | hs
        · exact hs
        · exfalso
          have : s.minus center = ⟨0, 0⟩ := by
            rw [hs]
            refine Vector2d.ext' ?_ ?_ <;> simp [Vector2d.minus]
          rw [this] at hdot
          simp [Vector2d.dot] at hdot
      have hecenter : Vector2d.distSquared e center = radius * radius := by
        rcases he with he | he
        · exact he
        · exfalso
          have : e.minus center = ⟨0, 0⟩ := by
            rw [he]
            refine Vector2d.ext' ?_ ?_ <;> simp [Vector2d.minus]
          rw [this] at hdot
          simp [Vector2d.dot] at hdot
      by_cases herr : Circle.getLineError s e center radius cw > tol / 2
      · rw [if_pos herr] at h
        by_cases heq : s.equals e
        · rw [if_pos heq] at h
          obtain rfl := Option.some.inj h
          intro seg hseg
          simp at hseg
        · rw [if_neg heq] at h
          unfold ArcSeg.make at h
          by_cases hex : Circle.centerExists s e radius
          · rw [if_pos hex] at h
            simp only [Option.map_some'] at h
            obtain rfl := Option.some.inj h
            intro seg hseg c hc
            rw [List.mem_singleton] at hseg
            subst hseg
            simp only [LASeg.center?] at hc
            have hne : s ≠ e := Vector2d.ne_of_not_equals heq
            obtain ⟨-, -, hdotc⟩ := (Circle.findCenter_spec hc).1 hne
            simp only [LASeg.start, LASeg.endPt]
            rw [hdotc]
            have hexp := distSquared_expand s e center
            nlinarith
          · rw [if_neg hex] at h
            simp at h
      · rw [if_neg herr] at h
        by_cases heq : s.equals e
        · rw [if_pos heq] at h
          obtain rfl := Option.some.inj h
          intro seg hseg
          simp at hseg
        · rw [if_neg heq] at h
          obtain rfl := Option.some.inj h
          intro seg hseg c hc
          rw [List.mem_singleton] at hseg
          subst hseg
          simp only [LASeg.center?] at hc
          exact Option.noConfusion hc

/-- C5 (amended): every arc segment emitted by `ArcSeg.oneOrMore` subtends at
most 90 degrees at its re-derived center — the dot product of the radius
vectors from that center to the arc's start and end is non-negative —
PROVIDED the call's `center` argument is consistent with the endpoints, i.e.
both lie on the circle of the given radius about it (as is the case for every
call `BezSeg.toLASegs` makes, whose center comes from the biarc fit through
the endpoints).  The amendment is the consistency proviso: the spec's
unconditional phrasing fails for inconsistent center arguments, see the
counterexample. -/
theorem c5_arc_span_bound (fuel : ℕ) (s e : Vector2d ℝ) (radius : ℝ)
    (center : Vector2d ℝ) (clockwise : Bool) (tolerance : ℝ) (l : List (LASeg ℝ))
    (h : ArcSeg.oneOrMore fuel s e radius center clockwise tolerance = some l)
    (hs : Vector2d.distSquared s center = radius * radius)
    (he : Vector2d.distSquared e center = radius * radius) :
    ∀ seg ∈ l, ∀ c, seg.center? = some c →
      0 ≤ (seg.start.minus c).dot (seg.endPt.minus c) :=
  oneOrMore_span fuel s e radius center clockwise tolerance l h (Or.inl hs) (Or.inl he)

/-- C5 counterexample: called with the inconsistent center argument (0,-10)
— the endpoints (-4,0), (4,0) are not on the circle of radius 5 about it —
`oneOrMore` emits a single arc whose own re-derived center is (0,3), where
the radius vectors have dot product (-4,-3)·(4,-3) = -7 < 0: the emitted arc
subtends more than 90 degrees at its center. -/
theorem c5_counterexample :
    ArcSeg.oneOrMore 1 ⟨-4, 0⟩ ⟨4, 0⟩ 5 ⟨0, -10⟩ false (1 / 10) =
        some [LASeg.arc ⟨-4, 0⟩ ⟨4, 0⟩ 5 false] ∧
      (LASeg.arc (⟨-4, 0⟩ : Vector2d ℝ) ⟨4, 0⟩ 5 false).center? = some ⟨0, 3⟩ ∧
      ((LASeg.arc (⟨-4, 0⟩ : Vector2d ℝ) ⟨4, 0⟩ 5 false).start.minus ⟨0, 3⟩).dot
          ((LASeg.arc (⟨-4, 0⟩ : Vector2d ℝ) ⟨4, 0⟩ 5 false).endPt.minus ⟨0, 3⟩) < 0 := by
  have hdot : ¬((Vector2d.minus (⟨-4, 0⟩ : Vector2d ℝ) ⟨0, -10⟩).dot
      (Vector2d.minus ⟨4, 0⟩ ⟨0, -10⟩) ≤ 0) := by
    norm_num [Vector2d.minus, Vector2d.dot]
  have hd10 : Vector2d.dist ((Vector2d.plus (⟨-4, 0⟩ : Vector2d ℝ) ⟨4, 0⟩).multiply 0.5)
      ⟨0, -10⟩ = 10 := by
    have hds : Vector2d.distSquared ((Vector2d.plus (⟨-4, 0⟩ : Vector2d ℝ) ⟨4, 0⟩).multiply 0.5)
        ⟨0, -10⟩ = 100 := by
      norm_num [Vector2d.plus, Vector2d.multiply, Vector2d.distSquared]
    rw [Vector2d.dist, hds, show (100 : ℝ) = 10 ^ 2 by norm_num]
    exact Real.sqrt_sq (by norm_num)
  have hcond : ((Vector2d.minus (⟨-4, 0⟩ : Vector2d ℝ) ⟨0, -10⟩).cross
      (Vector2d.minus ⟨4, 0⟩ ⟨0, -10⟩) < 0) ≠ (false = true) := by
    simp only [ne_eq, eq_iff_iff, Bool.false_eq_true, iff_false, not_not]
    norm_num [Vector2d.minus, Vector2d.cross]
  have herr : Circle.getLineError ⟨-4, 0⟩ ⟨4, 0⟩ ⟨0, -10⟩ 5 false = 15 := by
    simp only [Circle.getLineError]
    rw [if_pos hcond, hd10]
    norm_num
  have hneq : ¬ (Vector2d.equals (⟨-4, 0⟩ : Vector2d ℝ) ⟨4, 0⟩) := by
    norm_num [Vector2d.equals, Vector2d.epsilon, absVal]
  have hmake : ArcSeg.make (⟨-4, 0⟩ : Vector2d ℝ) ⟨4, 0⟩ 5 false =
      some (LASeg.arc ⟨-4, 0⟩ ⟨4, 0⟩ 5 false) := by
    unfold ArcSeg.make
    rw [if_pos (show Circle.centerExists (⟨-4, 0⟩ : Vector2d ℝ) ⟨4, 0⟩ 5 from
      ⟨by norm_num, by norm_num [Vector2d.distSquared]⟩)]
  have hfc : Circle.findCenter ⟨-4, 0⟩ ⟨4, 0⟩ 5 false = some ⟨0, 3⟩ := by
    have hmin : (Vector2d.minus (⟨4, 0⟩ : Vector2d ℝ) ⟨-4, 0⟩) = ⟨8, 0⟩ := by
      norm_num [Vector2d.minus]
    have hlen : Vector2d.length (⟨8, 0⟩ : Vector2d ℝ) = 8 := by
      simp only [Vector2d.length, Vector2d.lengthSquared]
      rw [show ((8 : ℝ) * 8 + 0 * 0 : ℝ) = 8 ^ 2 by norm_num]
      exact Real.sqrt_sq (by norm_num)
    simp only [Circle.findCenter, hmin, hlen]
    rw [if_neg (by norm_num)]
    rw [show (5 * 5 - 8 * 8 / 4 : ℝ) = 9 by norm_num,
      show (9 : ℝ) = 3 ^ 2 by norm_num, Real.sqrt_sq (by norm_num : (0 : ℝ) ≤ 3)]
    refine congrArg some (Vector2d.ext' ?_ ?_) <;>
      norm_num [Vector2d.plus, Vector2d.minus, Vector2d.multiply, Vector2d.rot90]
  refine ⟨?_, ?_, ?_⟩
  · rw [ArcSeg.oneOrMore]
    rw [if_neg hdot]
    rw [if_pos (show Circle.getLineError ⟨-4, 0⟩ ⟨4, 0⟩ ⟨0, -10⟩ 5 false > 1 / 10 / 2 by
      rw [herr]; norm_num)]
    rw [if_neg hneq, hmake]
    rfl
  · simp only [LASeg.center?]
    exact hfc
  · simp only [LASeg.start, LASeg.endPt]
    norm_num [Vector2d.minus, Vector2d.dot]

/-- C5 witness: a consistent call — endpoints (-3,4), (3,4) on the circle of
radius 5 about the passed center (0,0) — emits the single arc whose
re-derived center is again (0,0), and there the radius vectors have the
non-negative dot product 7. -/
theorem c5_witness :
    0 ≤ ((LASeg.arc (⟨-3, 4⟩ : Vector2d ℝ) ⟨3, 4⟩ 5 true).start.minus ⟨0, 0⟩).dot
        ((LASeg.arc (⟨-3, 4⟩ : Vector2d ℝ) ⟨3, 4⟩ 5 true).endPt.minus ⟨0, 0⟩) := by
  have hdot : ¬((Vector2d.minus (⟨-3, 4⟩ : Vector2d ℝ) ⟨0, 0⟩).dot
      (Vector2d.minus ⟨3, 4⟩ ⟨0, 0⟩) ≤ 0) := by
    norm_num [Vector2d.minus, Vector2d.dot]
  have hd4 : Vector2d.dist ((Vector2d.plus (⟨-3, 4⟩ : Vector2d ℝ) ⟨3, 4⟩).multiply 0.5)
      ⟨0, 0⟩ = 4 := by
    have hds : Vector2d.distSquared ((Vector2d.plus (⟨-3, 4⟩ : Vector2d ℝ) ⟨3, 4⟩).multiply 0.5)
        ⟨0, 0⟩ = 16 := by
      norm_num [Vector2d.plus, Vector2d.multiply, Vector2d.distSquared]
    rw [Vector2d.dist, hds, show (16 : ℝ) = 4 ^ 2 by norm_num]
    exact Real.sqrt_sq (by norm_num)
  have hcond : ¬(((Vector2d.minus (⟨-3, 4⟩ : Vector2d ℝ) ⟨0, 0⟩).cross
      (Vector2d.minus ⟨3, 4⟩ ⟨0, 0⟩) < 0) ≠ True) := by
    simp only [ne_eq, not_not, eq_iff_iff, iff_true]
    norm_num [Vector2d.minus, Vector2d.cross]
  have herr : Circle.getLineError ⟨-3, 4⟩ ⟨3, 4⟩ ⟨0, 0⟩ 5 true = 1 := by
    simp only [Circle.getLineError]
    rw [if_neg hcond, hd4]
    norm_num
  have hneq : ¬ (Vector2d.equals (⟨-3, 4⟩ : Vector2d ℝ) ⟨3, 4⟩) := by
    norm_num [Vector2d.equals, Vector2d.epsilon, absVal]
  have hmake : ArcSeg.make (⟨-3, 4⟩ : Vector2d ℝ) ⟨3, 4⟩ 5 true =
      some (LASeg.arc ⟨-3, 4⟩ ⟨3, 4⟩ 5 true) := by
    unfold ArcSeg.make
    rw [if_pos (show Circle.centerExists (⟨-3, 4⟩ : Vector2d ℝ) ⟨3, 4⟩ 5 from
      ⟨by norm_num, by norm_num [Vector2d.distSquared]⟩)]
  have hfc : Circle.findCenter ⟨-3, 4⟩ ⟨3, 4⟩ 5 true = some ⟨0, 0⟩ := by
    have hmin : (Vector2d.minus (⟨3, 4⟩ : Vector2d ℝ) ⟨-3, 4⟩) = ⟨6, 0⟩ := by
      norm_num [Vector2d.minus]
    have hlen : Vector2d.length (⟨6, 0⟩ : Vector2d ℝ) = 6 := by
      simp only [Vector2d.length, Vector2d.lengthSquared]
      rw [show ((6 : ℝ) * 6 + 0 * 0 : ℝ) = 6 ^ 2 by norm_num]
      exact Real.sqrt_sq (by norm_num)
    simp only [Circle.findCenter, hmin, hlen]
    rw [if_neg (by norm_num)]
    rw [show (5 * 5 - 6 * 6 / 4 : ℝ) = 16 by norm_num,
      show (16 : ℝ) = 4 ^ 2 by norm_num, Real.sqrt_sq (by norm_num : (0 : ℝ) ≤ 4)]
    refine congrArg some (Vector2d.ext' ?_ ?_) <;>
      norm_num [Vector2d.plus, Vector2d.minus, Vector2d.multiply, Vector2d.rot90]
  have h1 : ArcSeg.oneOrMore 1 ⟨-3, 4⟩ ⟨3, 4⟩ 5 ⟨0, 0⟩ true (1 / 10) =
      some [LASeg.arc ⟨-3, 4⟩ ⟨3, 4⟩ 5 true] := by
    rw [ArcSeg.oneOrMore]
    rw [if_neg hdot]
    rw [if_pos (show Circle.getLineError ⟨-3, 4⟩ ⟨3, 4⟩ ⟨0, 0⟩ 5 true > 1 / 10 / 2 by
      rw [herr]; norm_num)]
    rw [if_neg hneq, hmake]
    rfl
  exact c5_arc_span_bound 1 ⟨-3, 4⟩ ⟨3, 4⟩ 5 ⟨0, 0⟩ true (1 / 10)
    [LASeg.arc ⟨-3, 4⟩ ⟨3, 4⟩ 5 true] h1 (by norm_num [Vector2d.distSquared])
    (by norm_num [Vector2d.distSquared])
    (LASeg.arc ⟨-3, 4⟩ ⟨3, 4⟩ 5 true) (by simp) ⟨0, 0⟩
    (by simp only [LASeg.center?]; exact hfc)

/-! ## No degenerate output from the arc bisector (C9) -/

theorem oneOrMore_nodegen (fuel : ℕ) :
    ∀ (s e : Vector2d ℝ) (radius : ℝ) (center : Vector2d ℝ) (cw : Bool) (tol : ℝ)
      (l : List (LASeg ℝ)),
      ArcSeg.oneOrMore fuel s e radius center cw tol = some l →
      ∀ seg ∈ l, seg.start ≠ seg.endPt := by
  induction fuel with
  | zero =>
    intro s e radius center cw tol l h
    rw [ArcSeg.oneOrMore] at h
    exact Option.noConfusion h
  | succ n ih =>
    intro s e radius center cw tol l h
    rw [ArcSeg.oneOrMore] at h
    by_cases hdot : (s.minus center).dot (e.minus center) ≤ 0
    · rw [if_pos hdot] at h
      simp only [] at h
      obtain ⟨l1, h1, h⟩ := Option.bind_eq_some.mp h
      obtain ⟨l2, h2, h⟩ := Option.bind_eq_some.mp h
      obtain rfl := Option.some.inj h
      intro seg hseg
      rcases List.mem_append.mp hseg with hm | hm
      · exact ih _ _ _ _ _ _ _ h1 seg hm
      · exact ih _ _ _ _ _ _ _ h2 seg hm
    · rw [if_neg hdot] at h
      by_cases herr : Circle.getLineError s e center radius cw > tol / 2
      · rw [if_pos herr] at h
        by_cases heq : s.equals e
        · rw [if_pos heq] at h
          obtain rfl := Option.some.inj h
          intro seg hseg
          simp at hseg
        · rw [if_neg heq] at h
          unfold ArcSeg.make at h
          by_cases hex : Circle.centerExists s e radius
          · rw [if_pos hex] at h
            simp only [Option.map_some'] at h
            obtain rfl := Option.some.inj h
            intro seg hseg
            rw [List.mem_singleton] at hseg
            subst hseg
            simp only [LASeg.start, LASeg.endPt]
            exact Vector2d.ne_of_not_equals heq
          · rw [if_neg hex] at h
            simp at h
      · rw [if_neg herr] at h
        by_cases heq : s.equals e
        · rw [if_pos heq] at h
          obtain rfl := Option.some.inj h
          intro seg hseg
          simp at hseg
        · rw [if_neg heq] at h
          obtain rfl := Option.some.inj h
          intro seg hseg
          rw [List.mem_singleton] at hseg
          subst hseg
          simp only [LASeg.start, LASeg.endPt]
          exact Vector2d.ne_of_not_equals heq

theorem oneOrMore_full_circle (fuel : ℕ) (s : Vector2d ℝ) (radius : ℝ)
    (center : Vector2d ℝ) (cw : Bool) (tol : ℝ) (h : s ≠ center) :
    ArcSeg.oneOrMore (fuel + 1) s s radius center cw tol = some [] := by
  rw [ArcSeg.oneOrMore]
  have hpos : 0 < (s.minus center).dot (s.minus center) := by
    have hd : (s.minus center).dot (s.minus center) = Vector2d.distSquared s center := by
      simp only [Vector2d.dot, Vector2d.minus, Vector2d.distSquared]
    rw [hd]
    exact Vector2d.distSquared_pos h
  rw [if_neg (not_le.mpr hpos)]
  by_cases herr : Circle.getLineError s s center radius cw > tol / 2
  · rw [if_pos herr, if_pos (Vector2d.equals_refl s)]
  · rw [if_neg herr, if_pos (Vector2d.equals_refl s)]

/-- C9 (amended): `ArcSeg.oneOrMore` never emits a degenerate segment — no
segment of a successful result has start equal to end — and a call with
start = end and ANY radius returns the empty list, PROVIDED the coincident
endpoint differs from the center argument.  The amendment is that proviso:
when start = end = center the bisection midpoint collapses onto the point
itself and the recursion never returns (see the counterexample), so the
spec's unrestricted full-circle sentence fails there. -/
theorem c9_no_degenerate_segments :
    (∀ (fuel : ℕ) (s e : Vector2d ℝ) (radius : ℝ) (center : Vector2d ℝ)
        (clockwise : Bool) (tolerance : ℝ) (l : List (LASeg ℝ)),
      ArcSeg.oneOrMore fuel s e radius center clockwise tolerance = some l →
      ∀ seg ∈ l, seg.start ≠ seg.endPt) ∧
    (∀ (fuel : ℕ) (s : Vector2d ℝ) (radius : ℝ) (center : Vector2d ℝ)
        (clockwise : Bool) (tolerance : ℝ), s ≠ center →
      ArcSeg.oneOrMore (fuel + 1) s s radius center clockwise tolerance = some []) :=
  ⟨fun fuel => oneOrMore_nodegen fuel,
    fun fuel s radius center cw tol h => oneOrMore_full_circle fuel s radius center cw tol h⟩

theorem oneOrMore_center_loop : ∀ fuel : ℕ,
    ArcSeg.oneOrMore fuel ⟨0, 0⟩ ⟨0, 0⟩ 1 ⟨0, 0⟩ false (1 / 10) = none := by
  intro fuel
  induction fuel with
  | zero => rw [ArcSeg.oneOrMore]
  | succ n ih =>
    rw [ArcSeg.oneOrMore]
    rw [if_pos (show (Vector2d.minus (⟨0, 0⟩ : Vector2d ℝ) ⟨0, 0⟩).dot
        (Vector2d.minus ⟨0, 0⟩ ⟨0, 0⟩) ≤ 0 by norm_num [Vector2d.minus, Vector2d.dot])]
    have hm0 : (Vector2d.minus (⟨0, 0⟩ : Vector2d ℝ) ⟨0, 0⟩) = ⟨0, 0⟩ := by
      norm_num [Vector2d.minus]
    have hmid : Vector2d.plus (⟨0, 0⟩ : Vector2d ℝ)
        (ArcSeg.getMidVec (Vector2d.minus (⟨0, 0⟩ : Vector2d ℝ) ⟨0, 0⟩)
          (Vector2d.minus (⟨0, 0⟩ : Vector2d ℝ) ⟨0, 0⟩) false) = ⟨0, 0⟩ := by
      rw [hm0]
      unfold ArcSeg.getMidVec
      simp only []
      have hnz : (Vector2d.plus (⟨0, 0⟩ : Vector2d ℝ) ⟨0, 0⟩) = ⟨0, 0⟩ := by
        norm_num [Vector2d.plus]
      rw [hnz, Vector2d.normalize_zero]
      split <;>
      · refine Vector2d.ext' ?_ ?_ <;> simp [Vector2d.plus, Vector2d.multiply]
    simp only []
    rw [hmid, ih]
    rfl

/-- C9 counterexample: the full-circle request with start = end = (0,0) and
positive radius 1 but center argument also (0,0) (which the segment split of
`withNewEntryPoint` can produce for a degenerate arc) never returns: the
embedding yields `none` at every fuel — in particular at fuel 100 — not the
claimed empty list; the source recurses without bound there. -/
theorem c9_counterexample :
    ArcSeg.oneOrMore 100 ⟨0, 0⟩ ⟨0, 0⟩ 1 ⟨0, 0⟩ false (1 / 10) = none ∧
      (∀ fuel : ℕ, ArcSeg.oneOrMore fuel ⟨0, 0⟩ ⟨0, 0⟩ 1 ⟨0, 0⟩ false (1 / 10) = none) :=
  ⟨oneOrMore_center_loop 100, oneOrMore_center_loop⟩

/-! ## Depth accounting of the monotone biarc recursion (C3) -/

theorem monoCx_not_flat :
    ¬ CubicBezier.isFlat (⟨0, 0⟩ : Vector2d ℝ) ⟨1, 1⟩ ⟨4, 1⟩ ⟨3, 0⟩ (1 / 10) := by
  unfold CubicBezier.isFlat CubicBezier.cpWithinTolerance
  intro hflat
  simp only [] at hflat
  rcases hflat with ⟨h1, -⟩ | ⟨⟨h1, -, -⟩, -⟩
  · norm_num [Vector2d.distSquared] at h1
  · norm_num [CubicBezier.pointToLine, CubicBezier.lineEquation, Vector2d.minus,
      Vector2d.cross, Vector2d.distSquared] at h1

theorem monoCx_chord :
    ¬ (Vector2d.minus (⟨3, 0⟩ : Vector2d ℝ) ⟨0, 0⟩).length < 1 / 10 := by
  have h9 : Vector2d.lengthSquared (Vector2d.minus (⟨3, 0⟩ : Vector2d ℝ) ⟨0, 0⟩) = 9 := by
    norm_num [Vector2d.minus, Vector2d.lengthSquared]
  have h : (Vector2d.minus (⟨3, 0⟩ : Vector2d ℝ) ⟨0, 0⟩).length = 3 := by
    rw [Vector2d.length, h9, show (9 : ℝ) = 3 ^ 2 by norm_num]
    exact Real.sqrt_sq (by norm_num)
  rw [h]
  norm_num

theorem monoCx_cross :
    Intersection.line2line ((⟨0, 0⟩ : Vector2d ℝ), ⟨1, 1⟩) (⟨3, 0⟩, ⟨4, 1⟩) = none := by
  norm_num [Intersection.line2line, Vector2d.minus, absVal]

theorem monoCx_half :
    (⟨⟨0, 0⟩, ⟨1 / 2, 1 / 2⟩, ⟨3 / 2, 3 / 4⟩, ⟨9 / 4, 3 / 4⟩⟩ : BezPoints ℝ) ∈
      BiArc.halves ⟨0, 0⟩ ⟨1, 1⟩ ⟨4, 1⟩ ⟨3, 0⟩ := by
  have h : (CubicBezier.split (⟨0, 0⟩ : Vector2d ℝ) ⟨1, 1⟩ ⟨4, 1⟩ ⟨3, 0⟩ 0.5).1 =
      ⟨⟨0, 0⟩, ⟨1 / 2, 1 / 2⟩, ⟨3 / 2, 3 / 4⟩, ⟨9 / 4, 3 / 4⟩⟩ := by
    unfold CubicBezier.split Vector2d.lerp
    norm_num [BezPoints.mk.injEq, Vector2d.mk.injEq, Vector2d.plus, Vector2d.minus,
      Vector2d.multiply]
  rw [BiArc.halves, ← h]
  exact List.mem_cons_self _ _

/-- C3 (amended): the depth counter of `fromMonotoneBezier` is checked
against the bound before every recursive self-call — no call is made from a
state deeper than 50 — but NOT every self-call increases it: the four
`splitInHalf` sites pass the depth through unchanged and only the
sampled-error split increments it, so the depth bound alone does not limit
the total recursion (the spec's "every recursive self-call increases the
depth counter" is refuted by the counterexample). -/
theorem c3_depth_transitions (s t : MonoState) (h : BiArc.MonoCall s t) :
    s.depth ≤ 50 ∧ (t.depth = s.depth ∨ t.depth = s.depth + 1) := by
  cases h <;>
    first
    | exact ⟨Nat.le_of_not_lt (by assumption), Or.inl rfl⟩
    | exact ⟨Nat.le_of_not_lt (by assumption), Or.inr rfl⟩

/-- C3 counterexample: a recursive self-call (through `splitInHalf`, reached
because the tangent lines at the two endpoints of the curve
(0,0)-(1,1)-(4,1)-(3,0) are parallel, so `line2line` returns null) made at
depth 50 whose child runs at the SAME depth 50: the recursion step does not
increase the depth counter, so the depth bound does not limit the number of
recursive calls. -/
theorem c3_counterexample :
    BiArc.MonoCall ⟨⟨0, 0⟩, ⟨1, 1⟩, ⟨4, 1⟩, ⟨3, 0⟩, 1 / 10, 50⟩
      ⟨⟨0, 0⟩, ⟨1 / 2, 1 / 2⟩, ⟨3 / 2, 3 / 4⟩, ⟨9 / 4, 3 / 4⟩, 1 / 10, 50⟩ :=
  BiArc.MonoCall.splitNoCrossing ⟨0, 0⟩ ⟨1, 1⟩ ⟨4, 1⟩ ⟨3, 0⟩ (1 / 10) 50
    ⟨⟨0, 0⟩, ⟨1 / 2, 1 / 2⟩, ⟨3 / 2, 3 / 4⟩, ⟨9 / 4, 3 / 4⟩⟩
    (by norm_num) monoCx_not_flat monoCx_chord monoCx_cross monoCx_half

/-- C3 witness: the depth-transition bound applied to a concrete self-call
at depth 0 (the parallel-tangent curve split in half). -/
theorem c3_witness :
    (⟨⟨0, 0⟩, ⟨1, 1⟩, ⟨4, 1⟩, ⟨3, 0⟩, 1 / 10, 0⟩ : MonoState).depth ≤ 50 ∧
      ((⟨⟨0, 0⟩, ⟨1 / 2, 1 / 2⟩, ⟨3 / 2, 3 / 4⟩, ⟨9 / 4, 3 / 4⟩, 1 / 10, 0⟩ :
            MonoState).depth =
          (⟨⟨0, 0⟩, ⟨1, 1⟩, ⟨4, 1⟩, ⟨3, 0⟩, 1 / 10, 0⟩ : MonoState).depth ∨
        (⟨⟨0, 0⟩, ⟨1 / 2, 1 / 2⟩, ⟨3 / 2, 3 / 4⟩, ⟨9 / 4, 3 / 4⟩, 1 / 10, 0⟩ :
            MonoState).depth =
          (⟨⟨0, 0⟩, ⟨1, 1⟩, ⟨4, 1⟩, ⟨3, 0⟩, 1 / 10, 0⟩ : MonoState).depth + 1) :=
  c3_depth_transitions ⟨⟨0, 0⟩, ⟨1, 1⟩, ⟨4, 1⟩, ⟨3, 0⟩, 1 / 10, 0⟩
    ⟨⟨0, 0⟩, ⟨1 / 2, 1 / 2⟩, ⟨3 / 2, 3 / 4⟩, ⟨9 / 4, 3 / 4⟩, 1 / 10, 0⟩
    (BiArc.MonoCall.splitNoCrossing ⟨0, 0⟩ ⟨1, 1⟩ ⟨4, 1⟩ ⟨3, 0⟩ (1 / 10) 0
      ⟨⟨0, 0⟩, ⟨1 / 2, 1 / 2⟩, ⟨3 / 2, 3 / 4⟩, ⟨9 / 4, 3 / 4⟩⟩
      (by norm_num) monoCx_not_flat monoCx_chord monoCx_cross monoCx_half)

end KrabzCNC
